import Mathlib

set_option maxHeartbeats 1000000
set_option maxRecDepth 4000

/-!
Verification of the CBOR-style codec and serde bridge of this repository.
The core modules (wire codec engine, byte-source abstraction, error taxonomy,
data-model bridge) are declared in src/lib.rs but their bodies are not part of
the visible sources, so every definition below is modelled from the
specification (spec.md), with the visible test suite taken as the behavioral
contract.
-/

namespace Cbor

/-- Modelled from the spec: the DecodeError taxonomy of the error module
(end-of-input, reserved-indicator, invalid-utf8, type-mismatch,
length-overflow, malformed-indefinite, source-error) plus the bridge-level
"no matching variant" error of the untagged-enum retry loop.  `outOfFuel` is
an artifact of the shallow embedding (the Rust code recurses on the input
directly). -/
inductive Err where
  | endOfInput
  | reservedIndicator
  | invalidUtf8
  | typeMismatch
  | lengthOverflow
  | malformedIndefinite
  | sourceError
  | noMatchingVariant
  | outOfFuel
  deriving DecidableEq, Repr

/-- Modelled from the spec: a byte source.  `data` is the remaining input,
`chunk` bounds how many bytes a single `fill` call returns (0 means the whole
remaining input at once, as for a complete in-memory slice; 1 models the
SlowReader of the test suite), and `scoped` says whether returned views are
input-scoped (valid for the whole input lifetime) or call-scoped. -/
structure Source where
  data : List Nat
  chunk : Nat
  inputScoped : Bool
  deriving DecidableEq, Repr

/-- Modelled from the spec: number of bytes one `fill` call returns. -/
def Source.fillLen (s : Source) : Nat :=
  if s.chunk = 0 then s.data.length else min s.chunk s.data.length

/-- Modelled from the spec: `advance(n)` commits consumption of `n` bytes. -/
def Source.advance (s : Source) (n : Nat) : Source :=
  ⟨s.data.drop n, s.chunk, s.inputScoped⟩

/-- Modelled from the spec: the copying loop used when a single fill does not
cover a requested read; repeatedly fills, copies out, and advances. -/
def readExactGo : Nat → Source → Nat → List Nat → Option (List Nat × Source)
  | 0, _, _, _ => none
  | fuel + 1, s, n, acc =>
    if n = 0 then some (acc, s)
    else
      let k := s.fillLen
      if k = 0 then none
      else if n ≤ k then some (acc ++ s.data.take n, s.advance n)
      else readExactGo fuel (s.advance k) (n - k) (acc ++ s.data.take k)

/-- Modelled from the spec: read exactly `n` bytes.  When a single fill covers
the request the bytes are returned as a view (borrowed iff the source is
input-scoped); otherwise they are copied into an owned buffer (the returned
flag is `false`). -/
def readExact (s : Source) (n : Nat) : Option (List Nat × Bool × Source) :=
  if n ≤ s.fillLen then some (s.data.take n, s.inputScoped, s.advance n)
  else
    match readExactGo n s n [] with
    | some (bs, s₂) => some (bs, false, s₂)
    | none => none

theorem fillLen_le (s : Source) : s.fillLen ≤ s.data.length := by
  unfold Source.fillLen
  split <;> omega

theorem fillLen_pos (s : Source) (h : s.data ≠ []) : 0 < s.fillLen := by
  unfold Source.fillLen
  have : 0 < s.data.length := List.length_pos.mpr h
  split <;> omega

theorem readExactGo_spec : ∀ (fuel : Nat) (s : Source) (n : Nat) (acc : List Nat),
    n ≤ fuel → 0 < n →
    readExactGo fuel s n acc =
      if n ≤ s.data.length then some (acc ++ s.data.take n, s.advance n) else none := by
  intro fuel
  induction fuel with
  | zero =>
    intro s n acc hn hpos
    omega
  | succ f ih =>
    intro s n acc hn hpos
    unfold readExactGo
    by_cases h0 : n = 0
    · subst h0
      simp [Source.advance]
    · simp only [if_neg h0]
      by_cases hk : s.fillLen = 0
      · have hdata : s.data = [] := by
          by_contra hne
          have := fillLen_pos s hne
          omega
        have : ¬ n ≤ s.data.length := by
          rw [hdata]; simpa using h0
        simp [hk, this]
      · simp only [if_neg hk]
        by_cases hnk : n ≤ s.fillLen
        · have : n ≤ s.data.length := le_trans hnk (fillLen_le s)
          simp [hnk, this]
        · simp only [if_neg hnk]
          rw [ih]
          rotate_left
          · omega
          · omega
          · have hfl := fillLen_le s
            have hklen : s.fillLen ≤ s.data.length := hfl
            by_cases hlen : n ≤ s.data.length
            · have h1 : n - s.fillLen ≤ (s.advance s.fillLen).data.length := by
                simp [Source.advance]
                omega
              rw [if_pos h1, if_pos hlen]
              have htake : s.data.take (s.fillLen + (n - s.fillLen)) =
                  s.data.take s.fillLen ++ (s.data.drop s.fillLen).take (n - s.fillLen) := by
                rw [List.take_add]
              have hsum : s.fillLen + (n - s.fillLen) = n := by omega
              rw [hsum] at htake
              have hdrop : (s.data.drop s.fillLen).drop (n - s.fillLen) = s.data.drop n := by
                rw [List.drop_drop]
                congr 1
              simp only [Source.advance, htake, hdrop, List.append_assoc]
            · have h1 : ¬ (n - s.fillLen ≤ (s.advance s.fillLen).data.length) := by
                simp [Source.advance]
                omega
              rw [if_neg h1, if_neg hlen]

/-- Borrow classification of a read of `n` bytes: borrowed iff the source is
input-scoped and a single fill covers the whole request. -/
def Source.borrowFlag (s : Source) (n : Nat) : Bool :=
  s.inputScoped && decide (n ≤ s.fillLen)

theorem readExact_spec (s : Source) (n : Nat) :
    readExact s n =
      if n ≤ s.data.length then
        some (s.data.take n, s.borrowFlag n, s.advance n)
      else none := by
  unfold readExact Source.borrowFlag
  by_cases h : n ≤ s.fillLen
  · have : n ≤ s.data.length := le_trans h (fillLen_le s)
    simp [h, this]
  · have hpos : 0 < n := by
      have := s.fillLen
      omega
    rw [readExactGo_spec n s n [] (le_refl n) hpos]
    by_cases hlen : n ≤ s.data.length
    · simp [hlen, h]
    · simp [hlen]
      omega

/-- Convenience: a source over `bs` followed by nothing, with fill-chunk `c`
and scope flag `sc`. -/
def src (bs : List Nat) (c : Nat) (sc : Bool) : Source := ⟨bs, c, sc⟩

theorem readExact_front (pre rest : List Nat) (c : Nat) (sc : Bool) :
    readExact ⟨pre ++ rest, c, sc⟩ pre.length =
      some (pre, Source.borrowFlag ⟨pre ++ rest, c, sc⟩ pre.length, ⟨rest, c, sc⟩) := by
  rw [readExact_spec]
  have hle : pre.length ≤ (pre ++ rest).length := by simp
  rw [if_pos hle]
  simp [Source.advance]

/-- Big-endian bytes of `v`, exactly `k` bytes wide (modelled from the spec:
indicator 24–27 extra bytes are a big-endian length/value). -/
def beBytes : Nat → Nat → List Nat
  | 0, _ => []
  | k + 1, v => beBytes k (v / 256) ++ [v % 256]

/-- Big-endian value of a byte list. -/
def beVal (bs : List Nat) : Nat := bs.foldl (fun a b => a * 256 + b) 0

theorem beBytes_length (k v : Nat) : (beBytes k v).length = k := by
  induction k generalizing v with
  | zero => rfl
  | succ k ih => simp [beBytes, ih]

theorem beVal_go (bs : List Nat) : ∀ a, bs.foldl (fun x b => x * 256 + b) a =
    a * 256 ^ bs.length + bs.foldl (fun x b => x * 256 + b) 0 := by
  induction bs with
  | nil => intro a; simp
  | cons b bs ih =>
    intro a
    simp only [List.foldl_cons, List.length_cons]
    rw [ih (a * 256 + b)]
    have hb : (0 : Nat) * 256 + b = b := by ring
    rw [hb, ih b]
    ring

theorem beVal_beBytes (k v : Nat) (h : v < 256 ^ k) : beVal (beBytes k v) = v := by
  induction k generalizing v with
  | zero =>
    have : v = 0 := by simpa using h
    simp [this, beBytes, beVal]
  | succ k ih =>
    unfold beBytes beVal
    rw [List.foldl_append]
    have hdiv : v / 256 < 256 ^ k := by
      rw [Nat.div_lt_iff_lt_mul (by norm_num)]
      calc v < 256 ^ (k + 1) := h
        _ = 256 ^ k * 256 := by ring
    have := ih (v / 256) hdiv
    unfold beVal at this
    rw [this]
    simp
    omega

/-- Minimal big-endian width of `n` in bytes (used for the bignum path of the
bridge: 128-bit integers beyond the 64-bit header width). -/
def byteLen (n : Nat) : Nat :=
  if n = 0 then 0 else byteLen (n / 256) + 1
  termination_by n
  decreasing_by exact Nat.div_lt_self (by omega) (by norm_num)

theorem lt_pow_byteLen (n : Nat) : n < 256 ^ byteLen n := by
  induction n using Nat.strong_induction_on with
  | _ n ih =>
    unfold byteLen
    by_cases h : n = 0
    · simp [h]
    · rw [if_neg h]
      have hlt : n / 256 < n := Nat.div_lt_self (by omega) (by norm_num)
      have := ih (n / 256) hlt
      have h2 : n < (n / 256 + 1) * 256 := by omega
      calc n < (n / 256 + 1) * 256 := h2
        _ ≤ 256 ^ byteLen (n / 256) * 256 := by
            have : n / 256 + 1 ≤ 256 ^ byteLen (n / 256) := this
            exact Nat.mul_le_mul_right 256 this
        _ = 256 ^ (byteLen (n / 256) + 1) := by ring

theorem byteLen_le (n k : Nat) (h : n < 256 ^ k) : byteLen n ≤ k := by
  induction k generalizing n with
  | zero =>
    have : n = 0 := by simpa using h
    simp [this, byteLen]
  | succ k ih =>
    unfold byteLen
    by_cases h0 : n = 0
    · simp [h0]
    · rw [if_neg h0]
      have : n / 256 < 256 ^ k := by
        rw [Nat.div_lt_iff_lt_mul (by norm_num)]
        calc n < 256 ^ (k + 1) := h
          _ = 256 ^ k * 256 := by ring
      have := ih (n / 256) this
      omega

/-- Modelled from the spec: encode a header (3-bit major type in the high
bits, 5-bit indicator) with the length/value `v`, selecting the minimal
width: inline below 24, otherwise 1/2/4/8 big-endian extra bytes, always the
smallest sufficient width. -/
def encLen (m v : Nat) : List Nat :=
  if v < 24 then [m * 32 + v]
  else if v < 2 ^ 8 then [m * 32 + 24, v]
  else if v < 2 ^ 16 then (m * 32 + 25) :: beBytes 2 v
  else if v < 2 ^ 32 then (m * 32 + 26) :: beBytes 4 v
  else (m * 32 + 27) :: beBytes 8 v

/-- Modelled from the spec: parse one header: first byte gives major type and
indicator; indicators 24–27 read 1/2/4/8 extra big-endian bytes; indicator 31
is the indefinite/break marker (result `none`); indicators 28–30 are reserved
and fail decode. -/
def readTypeLen (s : Source) : Except Err (Nat × Option Nat × Source) :=
  match readExact s 1 with
  | none => .error .endOfInput
  | some (bs, _, s₁) =>
    match bs with
    | [b] =>
      let m := b / 32
      let ind := b % 32
      if ind < 24 then .ok (m, some ind, s₁)
      else if ind ≤ 27 then
        let k := 2 ^ (ind - 24)
        match readExact s₁ k with
        | none => .error .endOfInput
        | some (ebs, _, s₂) => .ok (m, some (beVal ebs), s₂)
      else if ind ≤ 30 then .error .reservedIndicator
      else .ok (m, none, s₁)
    | _ => .error .sourceError

theorem readTypeLen_eq (b : Nat) (l : List Nat) (c : Nat) (sc : Bool) :
    readTypeLen ⟨b :: l, c, sc⟩ =
      (if b % 32 < 24 then .ok (b / 32, some (b % 32), (⟨l, c, sc⟩ : Source))
       else if b % 32 ≤ 27 then
         match readExact ⟨l, c, sc⟩ (2 ^ (b % 32 - 24)) with
         | none => .error .endOfInput
         | some (ebs, _, s₂) => .ok (b / 32, some (beVal ebs), s₂)
       else if b % 32 ≤ 30 then .error .reservedIndicator
       else .ok (b / 32, none, (⟨l, c, sc⟩ : Source))) := by
  unfold readTypeLen
  rw [readExact_spec]
  simp only [List.length_cons, Nat.le_add_left, if_pos, List.take_succ_cons, List.take_zero,
    Source.advance, List.drop_succ_cons, List.drop_zero]

theorem readTypeLen_encLen (m v : Nat) (hm : m < 8) (hv : v < 2 ^ 64)
    (rest : List Nat) (c : Nat) (sc : Bool) :
    readTypeLen ⟨encLen m v ++ rest, c, sc⟩ = .ok (m, some v, (⟨rest, c, sc⟩ : Source)) := by
  unfold encLen
  split_ifs with h1 h2 h3 h4
  · simp only [List.cons_append, List.nil_append]
    rw [readTypeLen_eq]
    have hmod : (m * 32 + v) % 32 = v := by omega
    have hdiv : (m * 32 + v) / 32 = m := by omega
    rw [hmod, hdiv, if_pos h1]
  · simp only [List.cons_append, List.nil_append]
    rw [readTypeLen_eq]
    have hmod : (m * 32 + 24) % 32 = 24 := by omega
    have hdiv : (m * 32 + 24) / 32 = m := by omega
    rw [hmod, hdiv]
    norm_num
    rw [readExact_spec]
    have hlen : 1 ≤ (v :: rest).length := by simp
    rw [if_pos hlen]
    simp [Source.advance, beVal]
  · simp only [List.cons_append]
    rw [readTypeLen_eq]
    have hmod : (m * 32 + 25) % 32 = 25 := by omega
    have hdiv : (m * 32 + 25) / 32 = m := by omega
    rw [hmod, hdiv]
    norm_num
    have hbl : (beBytes 2 v).length = 2 := beBytes_length 2 v
    have := readExact_front (beBytes 2 v) rest c sc
    rw [hbl] at this
    rw [this]
    have hval := beVal_beBytes 2 v (by norm_num at h2 ⊢; omega)
    simp [hval]
  · simp only [List.cons_append]
    rw [readTypeLen_eq]
    have hmod : (m * 32 + 26) % 32 = 26 := by omega
    have hdiv : (m * 32 + 26) / 32 = m := by omega
    rw [hmod, hdiv]
    norm_num
    have hbl : (beBytes 4 v).length = 4 := beBytes_length 4 v
    have := readExact_front (beBytes 4 v) rest c sc
    rw [hbl] at this
    rw [this]
    have hval := beVal_beBytes 4 v (by norm_num at h3 ⊢; omega)
    simp [hval]
  · simp only [List.cons_append]
    rw [readTypeLen_eq]
    have hmod : (m * 32 + 27) % 32 = 27 := by omega
    have hdiv : (m * 32 + 27) / 32 = m := by omega
    rw [hmod, hdiv]
    norm_num
    have hbl : (beBytes 8 v).length = 8 := beBytes_length 8 v
    have := readExact_front (beBytes 8 v) rest c sc
    rw [hbl] at this
    rw [this]
    have hval := beVal_beBytes 8 v (by norm_num at hv ⊢; omega)
    simp [hval]

/-- A valid Unicode scalar value (what a Rust char can hold). -/
def validScalar (c : Nat) : Bool :=
  decide (c < 0xD800) || (decide (0xE000 ≤ c) && decide (c < 0x110000))

/-- Modelled from the spec: UTF-8 encoding of one scalar (text strings are
UTF-8 on the wire). -/
def utf8EncChar (c : Nat) : List Nat :=
  if c < 0x80 then [c]
  else if c < 0x800 then [0xC0 + c / 64, 0x80 + c % 64]
  else if c < 0x10000 then
    [0xE0 + c / 4096, 0x80 + c / 64 % 64, 0x80 + c % 64]
  else
    [0xF0 + c / 262144, 0x80 + c / 4096 % 64, 0x80 + c / 64 % 64, 0x80 + c % 64]

/-- UTF-8 encoding of a scalar sequence. -/
def utf8Enc : List Nat → List Nat
  | [] => []
  | c :: cs => utf8EncChar c ++ utf8Enc cs

mutual

/-- Modelled from the spec: mandatory UTF-8 validation of text payloads;
returns the scalar sequence on success and `none` on invalid UTF-8
(continuation errors, overlong forms, surrogates, out-of-range values). -/
def utf8Dec : List Nat → Option (List Nat)
  | [] => some []
  | b :: rest =>
    if b < 0x80 then (utf8Dec rest).map (fun cs => b :: cs)
    else if b < 0xC2 then none
    else if b < 0xE0 then utf8DecTwo b rest
    else if b < 0xF0 then utf8DecThree b rest
    else if b < 0xF5 then utf8DecFour b rest
    else none

def utf8DecTwo : Nat → List Nat → Option (List Nat)
  | b, b2 :: rest2 =>
    if 0x80 ≤ b2 ∧ b2 < 0xC0 then
      (utf8Dec rest2).map (fun cs => ((b - 0xC0) * 64 + (b2 - 0x80)) :: cs)
    else none
  | _, _ => none

def utf8DecThree : Nat → List Nat → Option (List Nat)
  | b, b2 :: b3 :: rest3 =>
    if (0x80 ≤ b2 ∧ b2 < 0xC0) ∧ (0x80 ≤ b3 ∧ b3 < 0xC0) then
      if (b - 0xE0) * 4096 + (b2 - 0x80) * 64 + (b3 - 0x80) < 0x800 then none
      else if 0xD800 ≤ (b - 0xE0) * 4096 + (b2 - 0x80) * 64 + (b3 - 0x80) ∧
          (b - 0xE0) * 4096 + (b2 - 0x80) * 64 + (b3 - 0x80) < 0xE000 then none
      else
        (utf8Dec rest3).map
          (fun cs => ((b - 0xE0) * 4096 + (b2 - 0x80) * 64 + (b3 - 0x80)) :: cs)
    else none
  | _, _ => none

def utf8DecFour : Nat → List Nat → Option (List Nat)
  | b, b2 :: b3 :: b4 :: rest4 =>
    if (0x80 ≤ b2 ∧ b2 < 0xC0) ∧ (0x80 ≤ b3 ∧ b3 < 0xC0) ∧ (0x80 ≤ b4 ∧ b4 < 0xC0) then
      if (b - 0xF0) * 262144 + (b2 - 0x80) * 4096 + (b3 - 0x80) * 64 + (b4 - 0x80) <
          0x10000 then none
      else if (b - 0xF0) * 262144 + (b2 - 0x80) * 4096 + (b3 - 0x80) * 64 + (b4 - 0x80) <
          0x110000 then
        (utf8Dec rest4).map
          (fun cs =>
            ((b - 0xF0) * 262144 + (b2 - 0x80) * 4096 + (b3 - 0x80) * 64 + (b4 - 0x80)) :: cs)
      else none
    else none
  | _, _ => none

end

theorem utf8Dec_encChar (c : Nat) (h : validScalar c = true) (rest : List Nat) :
    utf8Dec (utf8EncChar c ++ rest) = (utf8Dec rest).map (fun cs => c :: cs) := by
  have hv : c < 0xD800 ∨ (0xE000 ≤ c ∧ c < 0x110000) := by
    unfold validScalar at h
    rcases Bool.or_eq_true_iff.mp h with h1 | h2
    · exact Or.inl (by simpa using h1)
    · right
      simp only [Bool.and_eq_true, decide_eq_true_eq] at h2
      exact h2
  unfold utf8EncChar
  by_cases h1 : c < 0x80
  · rw [if_pos h1]
    simp only [List.cons_append, List.nil_append]
    rw [utf8Dec]
    rw [if_pos h1]
  · rw [if_neg h1]
    by_cases h2 : c < 0x800
    · rw [if_pos h2]
      simp only [List.cons_append, List.nil_append]
      rw [utf8Dec]
      have e1 : ¬ (0xC0 + c / 64 < 0x80) := by omega
      have e2 : ¬ (0xC0 + c / 64 < 0xC2) := by omega
      have e3 : 0xC0 + c / 64 < 0xE0 := by omega
      rw [if_neg e1, if_neg e2, if_pos e3]
      rw [utf8DecTwo]
      have e4 : 0x80 ≤ 0x80 + c % 64 ∧ 0x80 + c % 64 < 0xC0 := by omega
      rw [if_pos e4]
      have e5 : (0xC0 + c / 64 - 0xC0) * 64 + (0x80 + c % 64 - 0x80) = c := by omega
      rw [e5]
    · rw [if_neg h2]
      by_cases h3 : c < 0x10000
      · rw [if_pos h3]
        simp only [List.cons_append, List.nil_append]
        rw [utf8Dec]
        have e1 : ¬ (0xE0 + c / 4096 < 0x80) := by omega
        have e2 : ¬ (0xE0 + c / 4096 < 0xC2) := by omega
        have e3 : ¬ (0xE0 + c / 4096 < 0xE0) := by omega
        have e4 : 0xE0 + c / 4096 < 0xF0 := by omega
        rw [if_neg e1, if_neg e2, if_neg e3, if_pos e4]
        rw [utf8DecThree]
        have e5 : (0x80 ≤ 0x80 + c / 64 % 64 ∧ 0x80 + c / 64 % 64 < 0xC0) ∧
            0x80 ≤ 0x80 + c % 64 ∧ 0x80 + c % 64 < 0xC0 := by omega
        rw [if_pos e5]
        have eval : (0xE0 + c / 4096 - 0xE0) * 4096 + (0x80 + c / 64 % 64 - 0x80) * 64 +
            (0x80 + c % 64 - 0x80) = c := by omega
        have e6 : ¬ ((0xE0 + c / 4096 - 0xE0) * 4096 + (0x80 + c / 64 % 64 - 0x80) * 64 +
            (0x80 + c % 64 - 0x80) < 0x800) := by omega
        have e7 : ¬ (0xD800 ≤ (0xE0 + c / 4096 - 0xE0) * 4096 +
            (0x80 + c / 64 % 64 - 0x80) * 64 + (0x80 + c % 64 - 0x80) ∧
            (0xE0 + c / 4096 - 0xE0) * 4096 + (0x80 + c / 64 % 64 - 0x80) * 64 +
            (0x80 + c % 64 - 0x80) < 0xE000) := by omega
        rw [if_neg e6, if_neg e7, eval]
      · rw [if_neg h3]
        simp only [List.cons_append, List.nil_append]
        rw [utf8Dec]
        have hup : c < 0x110000 := by omega
        have e1 : ¬ (0xF0 + c / 262144 < 0x80) := by omega
        have e2 : ¬ (0xF0 + c / 262144 < 0xC2) := by omega
        have e3 : ¬ (0xF0 + c / 262144 < 0xE0) := by omega
        have e4 : ¬ (0xF0 + c / 262144 < 0xF0) := by omega
        have e5 : 0xF0 + c / 262144 < 0xF5 := by omega
        rw [if_neg e1, if_neg e2, if_neg e3, if_neg e4, if_pos e5]
        rw [utf8DecFour]
        have e6 : (0x80 ≤ 0x80 + c / 4096 % 64 ∧ 0x80 + c / 4096 % 64 < 0xC0) ∧
            (0x80 ≤ 0x80 + c / 64 % 64 ∧ 0x80 + c / 64 % 64 < 0xC0) ∧
            0x80 ≤ 0x80 + c % 64 ∧ 0x80 + c % 64 < 0xC0 := by omega
        rw [if_pos e6]
        have eval : (0xF0 + c / 262144 - 0xF0) * 262144 + (0x80 + c / 4096 % 64 - 0x80) * 4096 +
            (0x80 + c / 64 % 64 - 0x80) * 64 + (0x80 + c % 64 - 0x80) = c := by omega
        have e7 : ¬ ((0xF0 + c / 262144 - 0xF0) * 262144 +
            (0x80 + c / 4096 % 64 - 0x80) * 4096 +
            (0x80 + c / 64 % 64 - 0x80) * 64 + (0x80 + c % 64 - 0x80) < 0x10000) := by omega
        have e8 : (0xF0 + c / 262144 - 0xF0) * 262144 + (0x80 + c / 4096 % 64 - 0x80) * 4096 +
            (0x80 + c / 64 % 64 - 0x80) * 64 + (0x80 + c % 64 - 0x80) < 0x110000 := by omega
        rw [if_neg e7, if_pos e8, eval]

/-- All scalars in a list are valid. -/
def validStr (cs : List Nat) : Bool := cs.all validScalar

theorem utf8Dec_enc (cs : List Nat) (h : validStr cs = true) :
    utf8Dec (utf8Enc cs) = some cs := by
  induction cs with
  | nil => rfl
  | cons c cs ih =>
    unfold validStr at h ih
    simp only [List.all_cons, Bool.and_eq_true] at h
    unfold utf8Enc
    rw [utf8Dec_encChar c h.1, ih h.2]
    rfl

mutual

/-- Modelled from the spec: the declared shapes of the structured-data visitor
contract (unit, bool, integers up to 128-bit widths, float, char, string,
bytes, option, sequence, map, tuple pair, transparent newtype struct, enum).
Variant and field names are Unicode scalar sequences. -/
inductive Ty where
  | unit
  | boolTy
  | uint (w : Nat)
  | sint (w : Nat)
  | f64Ty
  | charTy
  | strTy
  | bytesTy
  | option (t : Ty)
  | seq (t : Ty)
  | mapTy (k v : Ty)
  | pairTy (a b : Ty)
  | newtype (t : Ty)
  | enumTy (vs : VariantList)

/-- Declared variants of an enum, in declaration order. -/
inductive VariantList where
  | nil
  | cons (name : List Nat) (sh : VShape) (rest : VariantList)

/-- Shape of one enum variant: unit, newtype, two-field tuple, or two-field
struct. -/
inductive VShape where
  | vunit
  | vnew (t : Ty)
  | vtup (a b : Ty)
  | vstruct (f1 : List Nat) (a : Ty) (f2 : List Nat) (b : Ty)

end

mutual

/-- A typed value presented to the serialize-visit contract. -/
inductive V where
  | vUnit
  | vBool (b : Bool)
  | vUInt (n : Nat)
  | vSInt (n : Int)
  | vF64 (bits : Nat)
  | vChar (c : Nat)
  | vStr (s : List Nat)
  | vBytes (bs : List Nat)
  | vNone
  | vSome (v : V)
  | vSeq (vs : VList)
  | vMap (es : VEntryList)
  | vPair (a b : V)
  | vNewtype (v : V)
  | vVariant (name : List Nat) (p : VPayload)

/-- Elements of a sequence value. -/
inductive VList where
  | nil
  | cons (v : V) (rest : VList)

/-- Entries of a map value, in emission order. -/
inductive VEntryList where
  | nil
  | cons (k v : V) (rest : VEntryList)

/-- Payload of an enum variant value. -/
inductive VPayload where
  | punit
  | pnew (v : V)
  | ptup (a b : V)
  | pstruct (f1 : List Nat) (a : V) (f2 : List Nat) (b : V)

end

def VList.length : VList → Nat
  | .nil => 0
  | .cons _ rest => rest.length + 1

def VEntryList.length : VEntryList → Nat
  | .nil => 0
  | .cons _ _ rest => rest.length + 1

/-- Look up a variant by name, first declaration wins. -/
def lookupVar : VariantList → List Nat → Option VShape
  | .nil, _ => none
  | .cons nm sh rest, name => if name = nm then some sh else lookupVar rest name

/-- Wire encoding of a text string: text-string header with the UTF-8 byte
count, then the UTF-8 bytes. -/
def serText (name : List Nat) : List Nat :=
  encLen 3 (utf8Enc name).length ++ utf8Enc name

/-- Modelled from the spec: encoding of an unsigned integer; minimal-width
native major type 0 when it fits the 64-bit header width, otherwise a tagged
bignum byte string (tag 2), a bridge-level decision. -/
def serUInt (n : Nat) : List Nat :=
  if n < 2 ^ 64 then encLen 0 n
  else 0xC2 :: (encLen 2 (byteLen n) ++ beBytes (byteLen n) n)

/-- Negative integer `-1 - m`: native major type 1 when `m` fits 64 bits,
otherwise a tagged bignum byte string (tag 3). -/
def serNInt (m : Nat) : List Nat :=
  if m < 2 ^ 64 then encLen 1 m
  else 0xC3 :: (encLen 2 (byteLen m) ++ beBytes (byteLen m) m)

mutual

/-- Modelled from the spec: the serialize-visit side of the data-model bridge.
Each typed value is translated into wire-codec calls: options are absent =
null / present = transparent; sequences and maps use definite lengths (the
length is known); enum variants use the external representation (bare name
for unit variants, single-entry map from name to payload otherwise); newtype
structs are transparent; unit is the `undefined` simple value, which the test
suite forces to be distinct from null so that a present option around unit
survives a round trip. -/
def serV : V → List Nat
  | .vUnit => [0xF7]
  | .vBool b => [if b then 0xF5 else 0xF4]
  | .vUInt n => serUInt n
  | .vSInt n => if 0 ≤ n then serUInt n.toNat else serNInt (-(n + 1)).toNat
  | .vF64 bits => 0xFB :: beBytes 8 bits
  | .vChar c => serText [c]
  | .vStr s => serText s
  | .vBytes bs => encLen 2 bs.length ++ bs
  | .vNone => [0xF6]
  | .vSome v => serV v
  | .vSeq vs => encLen 4 vs.length ++ serL vs
  | .vMap es => encLen 5 es.length ++ serE es
  | .vPair a b => encLen 4 2 ++ (serV a ++ serV b)
  | .vNewtype v => serV v
  | .vVariant name p =>
    match p with
    | .punit => serText name
    | _ => encLen 5 1 ++ (serText name ++ serP p)

/-- Wire bytes of a non-unit variant payload. -/
def serP : VPayload → List Nat
  | .punit => []
  | .pnew v => serV v
  | .ptup a b => encLen 4 2 ++ (serV a ++ serV b)
  | .pstruct f1 a f2 b =>
    encLen 5 2 ++ (serText f1 ++ (serV a ++ (serText f2 ++ serV b)))

/-- Concatenated encodings of sequence elements. -/
def serL : VList → List Nat
  | .nil => []
  | .cons v rest => serV v ++ serL rest

/-- Concatenated encodings of map entries (key then value). -/
def serE : VEntryList → List Nat
  | .nil => []
  | .cons k v rest => serV k ++ (serV v ++ serE rest)

end

deriving instance DecidableEq for Ty
deriving instance DecidableEq for Except
deriving instance DecidableEq for V
deriving instance Repr for Ty
deriving instance Repr for V

mutual

/-- Well-typedness of a value at a declared shape.  Length side conditions
record that wire lengths are platform sizes (below 2^64), as in the Rust
code where they are usize. -/
def wtT : Ty → V → Bool
  | .unit, .vUnit => true
  | .boolTy, .vBool _ => true
  | .uint w, .vUInt n => decide (w ≤ 128) && decide (n < 2 ^ w)
  | .sint w, .vSInt n =>
    decide (w ≤ 128) && decide (-(2 ^ (w - 1) : Int) ≤ n) && decide (n < (2 ^ (w - 1) : Int))
  | .f64Ty, .vF64 bits => decide (bits < 2 ^ 64)
  | .charTy, .vChar c => validScalar c
  | .strTy, .vStr s => validStr s && decide ((utf8Enc s).length < 2 ^ 64)
  | .bytesTy, .vBytes bs => bs.all (fun b => decide (b < 256)) && decide (bs.length < 2 ^ 64)
  | .option _, .vNone => true
  | .option t, .vSome v => wtT t v
  | .seq t, .vSeq vs => wtL t vs && decide (vs.length < 2 ^ 64)
  | .mapTy k v, .vMap es => wtE k v es && decide (es.length < 2 ^ 64)
  | .pairTy a b, .vPair x y => wtT a x && wtT b y
  | .newtype t, .vNewtype v => wtT t v
  | .enumTy vs, .vVariant name p =>
    validStr name && decide ((utf8Enc name).length < 2 ^ 64) &&
      (match lookupVar vs name with
       | some sh => wtP sh p
       | none => false)
  | _, _ => false

def wtL : Ty → VList → Bool
  | _, .nil => true
  | t, .cons v rest => wtT t v && wtL t rest

def wtE : Ty → Ty → VEntryList → Bool
  | _, _, .nil => true
  | k, v, .cons ke ve rest => wtT k ke && wtT v ve && wtE k v rest

def wtP : VShape → VPayload → Bool
  | .vunit, .punit => true
  | .vnew t, .pnew v => wtT t v
  | .vtup a b, .ptup x y => wtT a x && wtT b y
  | .vstruct f1 a f2 b, .pstruct g1 x g2 y =>
    decide (g1 = f1) && decide (g2 = f2) &&
      (validStr f1 && decide ((utf8Enc f1).length < 2 ^ 64)) &&
      (validStr f2 && decide ((utf8Enc f2).length < 2 ^ 64)) &&
      wtT a x && wtT b y
  | _, _ => false

end

mutual

/-- Fuel sufficient to decode the encoding of a value (one unit per wire
item; an artifact of the shallow embedding). -/
def needV : V → Nat
  | .vUnit | .vBool _ | .vUInt _ | .vSInt _ | .vF64 _ | .vChar _ | .vStr _
  | .vBytes _ | .vNone => 1
  | .vSome v => needV v + 1
  | .vSeq vs => needL vs + 1
  | .vMap es => needE es + 1
  | .vPair a b => needV a + needV b + 1
  | .vNewtype v => needV v + 1
  | .vVariant _ p => needP p + 1

def needL : VList → Nat
  | .nil => 1
  | .cons v rest => needV v + needL rest + 1

def needE : VEntryList → Nat
  | .nil => 1
  | .cons k v rest => needV k + needV v + needE rest + 1

def needP : VPayload → Nat
  | .punit => 1
  | .pnew v => needV v + 1
  | .ptup a b => needV a + needV b + 1
  | .pstruct _ a _ b => needV a + needV b + 1

end

/-- A value whose encoding is the null byte: an absent option, possibly
under transparent newtype wrappers. -/
def nullLike : V → Bool
  | .vNone => true
  | .vNewtype v => nullLike v
  | _ => false

mutual

/-- No occurrence of a present option wrapping a value that encodes as null
(e.g. Some(None)); such a present option is indistinguishable from the
absent option on the wire because both encode as null. -/
def nsnV : V → Bool
  | .vSome v => !(nullLike v) && nsnV v
  | .vSeq vs => nsnL vs
  | .vMap es => nsnE es
  | .vPair a b => nsnV a && nsnV b
  | .vNewtype v => nsnV v
  | .vVariant _ p => nsnP p
  | _ => true

def nsnL : VList → Bool
  | .nil => true
  | .cons v rest => nsnV v && nsnL rest

def nsnE : VEntryList → Bool
  | .nil => true
  | .cons k v rest => nsnV k && nsnV v && nsnE rest

def nsnP : VPayload → Bool
  | .punit => true
  | .pnew v => nsnV v
  | .ptup a b => nsnV a && nsnV b
  | .pstruct _ a _ b => nsnV a && nsnV b

end

/-- Read one byte from the source. -/
def readByte (s : Source) : Except Err (Nat × Source) :=
  match readExact s 1 with
  | some (bs, _, s₁) =>
    match bs with
    | [b] => .ok (b, s₁)
    | _ => .error .sourceError
  | none => .error .endOfInput

/-- Peek the next byte without consuming it (a fill of one byte with no
advance). -/
def peekByte (s : Source) : Option Nat := s.data.head?

/-- Read one definite text-string item and UTF-8-validate its payload. -/
def readText (s : Source) : Except Err (List Nat × Source) :=
  match readTypeLen s with
  | .ok (3, some n, s₁) =>
    match readExact s₁ n with
    | some (bs, _, s₂) =>
      match utf8Dec bs with
      | some cs => .ok (cs, s₂)
      | none => .error .invalidUtf8
    | none => .error .endOfInput
  | .ok _ => .error .typeMismatch
  | .error e => .error e

mutual

/-- Modelled from the spec: the deserialize-visit side of the data-model
bridge for self-describing-compatible targets: peek/parse the next item's
header and dispatch on the requested shape, failing with type-mismatch when
the wire major type does not match.  Fuel bounds recursion depth (artifact of
the embedding). -/
def deT : Nat → Ty → Source → Except Err (V × Source)
  | 0, _, _ => .error .outOfFuel
  | _ + 1, .unit, s => do
    let (b, s₁) ← readByte s
    if b = 0xF6 ∨ b = 0xF7 then pure (.vUnit, s₁) else .error .typeMismatch
  | _ + 1, .boolTy, s => do
    let (b, s₁) ← readByte s
    if b = 0xF4 then pure (.vBool false, s₁)
    else if b = 0xF5 then pure (.vBool true, s₁)
    else .error .typeMismatch
  | _ + 1, .f64Ty, s => do
    let (b, s₁) ← readByte s
    if b = 0xFB then
      match readExact s₁ 8 with
      | some (bs, _, s₂) => pure (.vF64 (beVal bs), s₂)
      | none => .error .endOfInput
    else .error .typeMismatch
  | _ + 1, .uint w, s =>
    (match readTypeLen s with
     | .ok (0, some n, s₁) =>
       if n < 2 ^ w then .ok (.vUInt n, s₁) else .error .typeMismatch
     | .ok (6, some 2, s₁) =>
       if 64 < w then
         match readTypeLen s₁ with
         | .ok (2, some len, s₂) =>
           match readExact s₂ len with
           | some (bs, _, s₃) =>
             if beVal bs < 2 ^ w then .ok (.vUInt (beVal bs), s₃) else .error .typeMismatch
           | none => .error .endOfInput
         | .ok _ => .error .typeMismatch
         | .error e => .error e
       else .error .typeMismatch
     | .ok _ => .error .typeMismatch
     | .error e => .error e)
  | _ + 1, .sint w, s =>
    (match readTypeLen s with
     | .ok (0, some n, s₁) =>
       if (n : Int) < 2 ^ (w - 1) then .ok (.vSInt n, s₁) else .error .typeMismatch
     | .ok (1, some m, s₁) =>
       if (m : Int) < 2 ^ (w - 1) then .ok (.vSInt (-1 - m), s₁) else .error .typeMismatch
     | .ok (6, some 2, s₁) =>
       if 64 < w then
         match readTypeLen s₁ with
         | .ok (2, some len, s₂) =>
           match readExact s₂ len with
           | some (bs, _, s₃) =>
             if (beVal bs : Int) < 2 ^ (w - 1) then .ok (.vSInt (beVal bs), s₃)
             else .error .typeMismatch
           | none => .error .endOfInput
         | .ok _ => .error .typeMismatch
         | .error e => .error e
       else .error .typeMismatch
     | .ok (6, some 3, s₁) =>
       if 64 < w then
         match readTypeLen s₁ with
         | .ok (2, some len, s₂) =>
           match readExact s₂ len with
           | some (bs, _, s₃) =>
             if (beVal bs : Int) < 2 ^ (w - 1) then .ok (.vSInt (-1 - (beVal bs : Int)), s₃)
             else .error .typeMismatch
           | none => .error .endOfInput
         | .ok _ => .error .typeMismatch
         | .error e => .error e
       else .error .typeMismatch
     | .ok _ => .error .typeMismatch
     | .error e => .error e)
  | _ + 1, .charTy, s => do
    let (cs, s₁) ← readText s
    match cs with
    | [c] => pure (.vChar c, s₁)
    | _ => .error .typeMismatch
  | _ + 1, .strTy, s => do
    let (cs, s₁) ← readText s
    pure (.vStr cs, s₁)
  | _ + 1, .bytesTy, s =>
    (match readTypeLen s with
     | .ok (2, some n, s₁) =>
       match readExact s₁ n with
       | some (bs, _, s₂) => .ok (.vBytes bs, s₂)
       | none => .error .endOfInput
     | .ok _ => .error .typeMismatch
     | .error e => .error e)
  | f + 1, .option t, s =>
    (match peekByte s with
     | none => .error .endOfInput
     | some b =>
       if b = 0xF6 then .ok (.vNone, s.advance 1)
       else do
         let (v, s₁) ← deT f t s
         pure (.vSome v, s₁))
  | f + 1, .seq t, s =>
    (match readTypeLen s with
     | .ok (4, some n, s₁) => do
       let (vs, s₂) ← deSeq f t n s₁
       pure (.vSeq vs, s₂)
     | .ok (4, none, s₁) => do
       let (vs, s₂) ← deSeqI f t s₁
       pure (.vSeq vs, s₂)
     | .ok _ => .error .typeMismatch
     | .error e => .error e)
  | f + 1, .mapTy k v, s =>
    (match readTypeLen s with
     | .ok (5, some n, s₁) => do
       let (es, s₂) ← deEntries f k v n s₁
       pure (.vMap es, s₂)
     | .ok (5, none, s₁) => do
       let (es, s₂) ← deEntriesI f k v s₁
       pure (.vMap es, s₂)
     | .ok _ => .error .typeMismatch
     | .error e => .error e)
  | f + 1, .pairTy a b, s =>
    (match readTypeLen s with
     | .ok (4, some 2, s₁) => do
       let (x, s₂) ← deT f a s₁
       let (y, s₃) ← deT f b s₂
       pure (.vPair x y, s₃)
     | .ok _ => .error .typeMismatch
     | .error e => .error e)
  | f + 1, .newtype t, s => do
    let (v, s₁) ← deT f t s
    pure (.vNewtype v, s₁)
  | f + 1, .enumTy vs, s =>
    (match readTypeLen s with
     | .ok (3, some n, s₁) =>
       (match readExact s₁ n with
        | some (bs, _, s₂) =>
          match utf8Dec bs with
          | some name =>
            (match lookupVar vs name with
             | some .vunit => .ok (.vVariant name .punit, s₂)
             | some _ => .error .typeMismatch
             | none => .error .typeMismatch)
          | none => .error .invalidUtf8
        | none => .error .endOfInput)
     | .ok (5, some 1, s₁) => do
       let (name, s₂) ← readText s₁
       match lookupVar vs name with
       | some .vunit => .error .typeMismatch
       | some sh => do
         let (p, s₃) ← dePayload f sh s₂
         pure (.vVariant name p, s₃)
       | none => .error .typeMismatch
     | .ok _ => .error .typeMismatch
     | .error e => .error e)

/-- Decode a non-unit variant payload at its declared shape. -/
def dePayload : Nat → VShape → Source → Except Err (VPayload × Source)
  | 0, _, _ => .error .outOfFuel
  | _ + 1, .vunit, _ => .error .typeMismatch
  | f + 1, .vnew t, s => do
    let (v, s₁) ← deT f t s
    pure (.pnew v, s₁)
  | f + 1, .vtup a b, s =>
    (match readTypeLen s with
     | .ok (4, some 2, s₁) => do
       let (x, s₂) ← deT f a s₁
       let (y, s₃) ← deT f b s₂
       pure (.ptup x y, s₃)
     | .ok _ => .error .typeMismatch
     | .error e => .error e)
  | f + 1, .vstruct f1 a f2 b, s =>
    (match readTypeLen s with
     | .ok (5, some 2, s₁) => do
       let (k1, s₂) ← readText s₁
       if k1 = f1 then do
         let (x, s₃) ← deT f a s₂
         let (k2, s₄) ← readText s₃
         if k2 = f2 then do
           let (y, s₅) ← deT f b s₄
           pure (.pstruct f1 x f2 y, s₅)
         else .error .typeMismatch
       else if k1 = f2 then do
         let (y, s₃) ← deT f b s₂
         let (k2, s₄) ← readText s₃
         if k2 = f1 then do
           let (x, s₅) ← deT f a s₄
           pure (.pstruct f1 x f2 y, s₅)
         else .error .typeMismatch
       else .error .typeMismatch
     | .ok _ => .error .typeMismatch
     | .error e => .error e)

/-- Decode a definite-length run of `n` sequence elements. -/
def deSeq : Nat → Ty → Nat → Source → Except Err (VList × Source)
  | 0, _, _, _ => .error .outOfFuel
  | _ + 1, _, 0, s => .ok (.nil, s)
  | f + 1, t, n + 1, s => do
    let (v, s₁) ← deT f t s
    let (vs, s₂) ← deSeq f t n s₁
    pure (.cons v vs, s₂)

/-- Decode indefinite-length sequence elements until a break marker. -/
def deSeqI : Nat → Ty → Source → Except Err (VList × Source)
  | 0, _, _ => .error .outOfFuel
  | f + 1, t, s =>
    (match peekByte s with
     | none => .error .endOfInput
     | some b =>
       if b = 0xFF then .ok (.nil, s.advance 1)
       else do
         let (v, s₁) ← deT f t s
         let (vs, s₂) ← deSeqI f t s₁
         pure (.cons v vs, s₂))

/-- Decode a definite-length run of `n` map entries. -/
def deEntries : Nat → Ty → Ty → Nat → Source → Except Err (VEntryList × Source)
  | 0, _, _, _, _ => .error .outOfFuel
  | _ + 1, _, _, 0, s => .ok (.nil, s)
  | f + 1, k, v, n + 1, s => do
    let (ke, s₁) ← deT f k s
    let (ve, s₂) ← deT f v s₁
    let (es, s₃) ← deEntries f k v n s₂
    pure (.cons ke ve es, s₃)

/-- Decode indefinite-length map entries until a break marker. -/
def deEntriesI : Nat → Ty → Ty → Source → Except Err (VEntryList × Source)
  | 0, _, _, _ => .error .outOfFuel
  | f + 1, k, v, s =>
    (match peekByte s with
     | none => .error .endOfInput
     | some b =>
       if b = 0xFF then .ok (.nil, s.advance 1)
       else do
         let (ke, s₁) ← deT f k s
         let (ve, s₂) ← deT f v s₁
         let (es, s₃) ← deEntriesI f k v s₂
         pure (.cons ke ve es, s₃))

end

theorem encLen_head (m v : Nat) :
    ∃ b l, encLen m v = b :: l ∧ m * 32 ≤ b ∧ b ≤ m * 32 + 27 := by
  unfold encLen
  split_ifs <;> exact ⟨_, _, rfl, by omega, by omega⟩

theorem readByte_cons (b : Nat) (l : List Nat) (c : Nat) (sc : Bool) :
    readByte ⟨b :: l, c, sc⟩ = .ok (b, (⟨l, c, sc⟩ : Source)) := by
  unfold readByte
  rw [readExact_spec]
  simp [Source.advance]

theorem readText_serText (name : List Nat) (hv : validStr name = true)
    (hlen : (utf8Enc name).length < 2 ^ 64) (rest : List Nat) (c : Nat) (sc : Bool) :
    readText ⟨serText name ++ rest, c, sc⟩ = .ok (name, (⟨rest, c, sc⟩ : Source)) := by
  unfold readText serText
  rw [List.append_assoc]
  rw [readTypeLen_encLen 3 (utf8Enc name).length (by omega) hlen]
  have hre := readExact_front (utf8Enc name) rest c sc
  simp [hre, utf8Dec_enc name hv]

theorem serText_head (name : List Nat) :
    ∃ b l, serText name = b :: l ∧ 96 ≤ b ∧ b ≤ 123 := by
  unfold serText
  obtain ⟨b, l, heq, h1, h2⟩ := encLen_head 3 (utf8Enc name).length
  rw [heq]
  exact ⟨b, l ++ utf8Enc name, rfl, by omega, by omega⟩

theorem serV_head : ∀ (v : V), ∃ b l, serV v = b :: l ∧ b ≠ 0xFF ∧
    (nsnV v = true → nullLike v = false → b ≠ 0xF6)
  | .vUnit => ⟨0xF7, [], rfl, by omega, fun _ _ => by omega⟩
  | .vBool false => ⟨0xF4, [], rfl, by omega, fun _ _ => by omega⟩
  | .vBool true => ⟨0xF5, [], rfl, by omega, fun _ _ => by omega⟩
  | .vUInt n => by
    show ∃ b l, serUInt n = b :: l ∧ _
    unfold serUInt
    split_ifs
    · obtain ⟨b, l, heq, h1, h2⟩ := encLen_head 0 n
      exact ⟨b, l, heq, by omega, fun _ _ => by omega⟩
    · exact ⟨0xC2, _, rfl, by omega, fun _ _ => by omega⟩
  | .vSInt n => by
    show ∃ b l, (if 0 ≤ n then serUInt n.toNat else serNInt (-(n + 1)).toNat) = b :: l ∧ _
    split_ifs
    · unfold serUInt
      split_ifs
      · obtain ⟨b, l, heq, h1, h2⟩ := encLen_head 0 n.toNat
        exact ⟨b, l, heq, by omega, fun _ _ => by omega⟩
      · exact ⟨0xC2, _, rfl, by omega, fun _ _ => by omega⟩
    · unfold serNInt
      split_ifs
      · obtain ⟨b, l, heq, h1, h2⟩ := encLen_head 1 (-(n + 1)).toNat
        exact ⟨b, l, heq, by omega, fun _ _ => by omega⟩
      · exact ⟨0xC3, _, rfl, by omega, fun _ _ => by omega⟩
  | .vF64 bits => ⟨0xFB, _, rfl, by omega, fun _ _ => by omega⟩
  | .vChar c => by
    show ∃ b l, serText [c] = b :: l ∧ _
    obtain ⟨b, l, heq, h1, h2⟩ := serText_head [c]
    exact ⟨b, l, heq, by omega, fun _ _ => by omega⟩
  | .vStr str => by
    show ∃ b l, serText str = b :: l ∧ _
    obtain ⟨b, l, heq, h1, h2⟩ := serText_head str
    exact ⟨b, l, heq, by omega, fun _ _ => by omega⟩
  | .vBytes bs => by
    show ∃ b l, encLen 2 bs.length ++ bs = b :: l ∧ _
    obtain ⟨b, l, heq, h1, h2⟩ := encLen_head 2 bs.length
    rw [heq]
    exact ⟨b, l ++ bs, rfl, by omega, fun _ _ => by omega⟩
  | .vNone =>
    ⟨0xF6, [], rfl, by omega, fun _ hnl => by simp [nullLike] at hnl⟩
  | .vSome v => by
    obtain ⟨b, l, heq, hff, hf6⟩ := serV_head v
    refine ⟨b, l, heq, hff, fun hnsn _ => ?_⟩
    have : nullLike v = false ∧ nsnV v = true := by
      unfold nsnV at hnsn
      simp only [Bool.and_eq_true, Bool.not_eq_true'] at hnsn
      exact hnsn
    exact hf6 this.2 this.1
  | .vSeq vs => by
    show ∃ b l, encLen 4 (VList.length vs) ++ serL vs = b :: l ∧ _
    obtain ⟨b, l, heq, h1, h2⟩ := encLen_head 4 (VList.length vs)
    rw [heq]
    exact ⟨b, l ++ serL vs, rfl, by omega, fun _ _ => by omega⟩
  | .vMap es => by
    show ∃ b l, encLen 5 (VEntryList.length es) ++ serE es = b :: l ∧ _
    obtain ⟨b, l, heq, h1, h2⟩ := encLen_head 5 (VEntryList.length es)
    rw [heq]
    exact ⟨b, l ++ serE es, rfl, by omega, fun _ _ => by omega⟩
  | .vPair a b => by
    show ∃ x l, encLen 4 2 ++ (serV a ++ serV b) = x :: l ∧ _
    obtain ⟨x, l, heq, h1, h2⟩ := encLen_head 4 2
    rw [heq]
    exact ⟨x, l ++ (serV a ++ serV b), rfl, by omega, fun _ _ => by omega⟩
  | .vNewtype v => by
    obtain ⟨b, l, heq, hff, hf6⟩ := serV_head v
    refine ⟨b, l, heq, hff, fun hnsn hnl => ?_⟩
    have h1 : nsnV v = true := by
      unfold nsnV at hnsn
      exact hnsn
    have h2 : nullLike v = false := by
      unfold nullLike at hnl
      exact hnl
    exact hf6 h1 h2
  | .vVariant name p => by
    cases p with
    | punit =>
      obtain ⟨b, l, heq, h1, h2⟩ := serText_head name
      exact ⟨b, l, heq, by omega, fun _ _ => by omega⟩
    | pnew v =>
      obtain ⟨b, l, heq, h1, h2⟩ := encLen_head 5 1
      exact ⟨b, l ++ (serText name ++ serP (.pnew v)), by simp [serV, heq],
        by omega, fun _ _ => by omega⟩
    | ptup x y =>
      obtain ⟨b, l, heq, h1, h2⟩ := encLen_head 5 1
      exact ⟨b, l ++ (serText name ++ serP (.ptup x y)), by simp [serV, heq],
        by omega, fun _ _ => by omega⟩
    | pstruct f1 x f2 y =>
      obtain ⟨b, l, heq, h1, h2⟩ := encLen_head 5 1
      exact ⟨b, l ++ (serText name ++ serP (.pstruct f1 x f2 y)), by simp [serV, heq],
        by omega, fun _ _ => by omega⟩

theorem utf8EncChar_len (c : Nat) : (utf8EncChar c).length ≤ 4 := by
  unfold utf8EncChar
  split_ifs <;> simp

theorem bignum_fits (w n : Nat) (hw : w ≤ 128) (hn : n < 2 ^ w) : byteLen n < 2 ^ 64 := by
  have h1 : n < 256 ^ 16 := by
    calc n < 2 ^ w := hn
      _ ≤ 2 ^ 128 := Nat.pow_le_pow_right (by norm_num) hw
      _ = 256 ^ 16 := by norm_num
  have := byteLen_le n 16 h1
  omega

theorem deT_serUInt (w n : Nat) (hw : w ≤ 128) (hn : n < 2 ^ w)
    (f : Nat) (rest : List Nat) (c : Nat) (sc : Bool) :
    deT (f + 1) (.uint w) ⟨serUInt n ++ rest, c, sc⟩ = .ok (.vUInt n, (⟨rest, c, sc⟩ : Source)) := by
  unfold serUInt
  by_cases h64 : n < 2 ^ 64
  · rw [if_pos h64]
    simp only [deT]
    rw [readTypeLen_encLen 0 n (by omega) h64]
    simp [hn]
  · rw [if_neg h64]
    have hw64 : 64 < w := by
      by_contra hc
      have : 2 ^ w ≤ 2 ^ 64 := Nat.pow_le_pow_right (by norm_num) (by omega)
      omega
    simp only [deT, List.cons_append]
    rw [readTypeLen_eq]
    norm_num
    rw [readTypeLen_encLen 2 (byteLen n) (by omega) (bignum_fits w n hw hn)]
    have hre := readExact_front (beBytes (byteLen n) n) rest c sc
    rw [beBytes_length] at hre
    have hbv := beVal_beBytes (byteLen n) n (lt_pow_byteLen n)
    simp [hw64, hre, hbv, hn]

theorem deT_serSInt (w : Nat) (n : Int) (hw : w ≤ 128)
    (h1 : -(2 ^ (w - 1) : Int) ≤ n) (h2 : n < (2 ^ (w - 1) : Int))
    (f : Nat) (rest : List Nat) (c : Nat) (sc : Bool) :
    deT (f + 1) (.sint w) ⟨serV (.vSInt n) ++ rest, c, sc⟩ =
      .ok (.vSInt n, (⟨rest, c, sc⟩ : Source)) := by
  have hpow : ((2 ^ (w - 1) : Nat) : Int) = (2 ^ (w - 1) : Int) := by push_cast; ring
  by_cases hpos : 0 ≤ n
  · have hser : serV (.vSInt n) = serUInt n.toNat := by
      simp [serV, hpos]
    rw [hser]
    set k := n.toNat with hkdef
    have hnat : (k : Int) = n := by
      rw [hkdef]; exact Int.toNat_of_nonneg hpos
    have hn : k < 2 ^ (w - 1) := by omega
    unfold serUInt
    by_cases h64 : k < 2 ^ 64
    · rw [if_pos h64]
      simp only [deT]
      rw [readTypeLen_encLen 0 k (by omega) h64]
      have hlt : ((k : Nat) : Int) < (2 ^ (w - 1) : Int) := by omega
      simp [hlt, hnat, h2]
    · rw [if_neg h64]
      have hw64 : 64 < w := by
        by_contra hc
        have hh : (2 : Nat) ^ (w - 1) ≤ 2 ^ 64 := Nat.pow_le_pow_right (by norm_num) (by omega)
        omega
      simp only [deT, List.cons_append]
      rw [readTypeLen_eq]
      norm_num
      rw [readTypeLen_encLen 2 (byteLen k) (by omega)
        (bignum_fits (w - 1) k (by omega) hn)]
      have hre := readExact_front (beBytes (byteLen k) k) rest c sc
      rw [beBytes_length] at hre
      have hbv := beVal_beBytes (byteLen k) k (lt_pow_byteLen k)
      have hlt : ((k : Nat) : Int) < (2 ^ (w - 1) : Int) := by omega
      simp [hw64, hre, hbv, hlt, hnat, h2]
  · have hser : serV (.vSInt n) = serNInt (-(n + 1)).toNat := by
      simp [serV, hpos]
    rw [hser]
    set m := (-(n + 1)).toNat with hmdef
    have hmn : (m : Int) = -(n + 1) := by
      rw [hmdef]; exact Int.toNat_of_nonneg (by omega)
    have hm : m < 2 ^ (w - 1) := by omega
    unfold serNInt
    by_cases h64 : m < 2 ^ 64
    · rw [if_pos h64]
      simp only [deT]
      rw [readTypeLen_encLen 1 m (by omega) h64]
      have hlt : ((m : Nat) : Int) < (2 ^ (w - 1) : Int) := by omega
      have hval : -1 - ((m : Nat) : Int) = n := by omega
      simp [hlt, hval]
    · rw [if_neg h64]
      have hw64 : 64 < w := by
        by_contra hc
        have hh : (2 : Nat) ^ (w - 1) ≤ 2 ^ 64 := Nat.pow_le_pow_right (by norm_num) (by omega)
        omega
      simp only [deT, List.cons_append]
      rw [readTypeLen_eq]
      norm_num
      rw [readTypeLen_encLen 2 (byteLen m) (by omega)
        (bignum_fits (w - 1) m (by omega) hm)]
      have hre := readExact_front (beBytes (byteLen m) m) rest c sc
      rw [beBytes_length] at hre
      have hbv := beVal_beBytes (byteLen m) m (lt_pow_byteLen m)
      have hlt : ((m : Nat) : Int) < (2 ^ (w - 1) : Int) := by omega
      have hval : -1 - ((m : Nat) : Int) = n := by omega
      simp [hw64, hre, hbv, hlt, hval]

mutual

/-- Round-trip for one typed value: decoding its encoding at its declared
shape returns the value and leaves the trailing input untouched, for any
fill-chunk policy and scope of the source. -/
theorem rtV : ∀ (v : V) (t : Ty), wtT t v = true → nsnV v = true →
    ∀ (f : Nat) (rest : List Nat) (c : Nat) (sc : Bool), needV v ≤ f →
    deT f t ⟨serV v ++ rest, c, sc⟩ = .ok (v, (⟨rest, c, sc⟩ : Source))
  | .vUnit, t, hwt, _, f, rest, c, sc, hf => by
    cases t <;> simp only [wtT] at hwt <;> try exact Bool.noConfusion hwt
    simp only [needV] at hf
    obtain ⟨g, rfl⟩ : ∃ g, f = g + 1 := ⟨f - 1, by omega⟩
    simp only [serV, List.cons_append, List.nil_append, deT]
    rw [readByte_cons]
    simp [Bind.bind, Except.bind, Pure.pure, Except.pure]
  | .vBool b, t, hwt, _, f, rest, c, sc, hf => by
    cases t <;> simp only [wtT] at hwt <;> try exact Bool.noConfusion hwt
    simp only [needV] at hf
    obtain ⟨g, rfl⟩ : ∃ g, f = g + 1 := ⟨f - 1, by omega⟩
    cases b <;>
      (simp only [serV, List.cons_append, List.nil_append, deT]
       rw [readByte_cons]
       simp [Bind.bind, Except.bind, Pure.pure, Except.pure])
  | .vUInt n, t, hwt, _, f, rest, c, sc, hf => by
    cases t <;> simp only [wtT] at hwt <;> try exact Bool.noConfusion hwt
    simp only [Bool.and_eq_true, decide_eq_true_eq] at hwt
    simp only [needV] at hf
    obtain ⟨g, rfl⟩ : ∃ g, f = g + 1 := ⟨f - 1, by omega⟩
    show deT (g + 1) _ ⟨serUInt n ++ rest, c, sc⟩ = _
    exact deT_serUInt _ n hwt.1 hwt.2 g rest c sc
  | .vSInt n, t, hwt, _, f, rest, c, sc, hf => by
    cases t <;> simp only [wtT] at hwt <;> try exact Bool.noConfusion hwt
    simp only [Bool.and_eq_true, decide_eq_true_eq] at hwt
    simp only [needV] at hf
    obtain ⟨g, rfl⟩ : ∃ g, f = g + 1 := ⟨f - 1, by omega⟩
    exact deT_serSInt _ n hwt.1.1 hwt.1.2 hwt.2 g rest c sc
  | .vF64 bits, t, hwt, _, f, rest, c, sc, hf => by
    cases t <;> simp only [wtT] at hwt <;> try exact Bool.noConfusion hwt
    simp only [decide_eq_true_eq] at hwt
    simp only [needV] at hf
    obtain ⟨g, rfl⟩ : ∃ g, f = g + 1 := ⟨f - 1, by omega⟩
    simp only [serV, List.cons_append, deT]
    rw [readByte_cons]
    have hre := readExact_front (beBytes 8 bits) rest c sc
    rw [beBytes_length] at hre
    have hbv := beVal_beBytes 8 bits (by norm_num at hwt ⊢; omega)
    simp [Bind.bind, Except.bind, Pure.pure, Except.pure, hre, hbv]
  | .vChar ch, t, hwt, _, f, rest, c, sc, hf => by
    cases t <;> simp only [wtT] at hwt <;> try exact Bool.noConfusion hwt
    simp only [needV] at hf
    obtain ⟨g, rfl⟩ : ∃ g, f = g + 1 := ⟨f - 1, by omega⟩
    simp only [serV, deT]
    rw [readText_serText [ch] (by simp [validStr, hwt])
      (by have := utf8EncChar_len ch; simp [utf8Enc]; omega)]
    simp [Bind.bind, Except.bind, Pure.pure, Except.pure]
  | .vStr str, t, hwt, _, f, rest, c, sc, hf => by
    cases t <;> simp only [wtT] at hwt <;> try exact Bool.noConfusion hwt
    simp only [Bool.and_eq_true, decide_eq_true_eq] at hwt
    simp only [needV] at hf
    obtain ⟨g, rfl⟩ : ∃ g, f = g + 1 := ⟨f - 1, by omega⟩
    simp only [serV, deT]
    rw [readText_serText str hwt.1 hwt.2]
    simp [Bind.bind, Except.bind, Pure.pure, Except.pure]
  | .vBytes bs, t, hwt, _, f, rest, c, sc, hf => by
    cases t <;> simp only [wtT] at hwt <;> try exact Bool.noConfusion hwt
    simp only [Bool.and_eq_true, decide_eq_true_eq] at hwt
    simp only [needV] at hf
    obtain ⟨g, rfl⟩ : ∃ g, f = g + 1 := ⟨f - 1, by omega⟩
    simp only [serV, deT, List.append_assoc]
    rw [readTypeLen_encLen 2 bs.length (by omega) hwt.2]
    have hre := readExact_front bs rest c sc
    simp [hre]
  | .vNone, t, hwt, _, f, rest, c, sc, hf => by
    cases t <;> simp only [wtT] at hwt <;> try exact Bool.noConfusion hwt
    simp only [needV] at hf
    obtain ⟨g, rfl⟩ : ∃ g, f = g + 1 := ⟨f - 1, by omega⟩
    simp only [serV, List.cons_append, List.nil_append, deT]
    simp [peekByte, Source.advance]
  | .vSome v, t, hwt, hnsn, f, rest, c, sc, hf => by
    cases t <;> simp only [wtT] at hwt <;> try exact Bool.noConfusion hwt
    rename_i t₁
    simp only [nsnV, Bool.and_eq_true, Bool.not_eq_true'] at hnsn
    simp only [needV] at hf
    obtain ⟨g, rfl⟩ : ∃ g, f = g + 1 := ⟨f - 1, by omega⟩
    obtain ⟨b, l, heq, hff, hf6⟩ := serV_head v
    have hb6 : b ≠ 0xF6 := hf6 hnsn.2 hnsn.1
    have hpeek : peekByte ⟨serV (V.vSome v) ++ rest, c, sc⟩ = some b := by
      simp only [serV, heq, List.cons_append]
      rfl
    simp only [deT, hpeek]
    rw [if_neg hb6]
    have hrec := rtV v t₁ hwt hnsn.2 g rest c sc (by omega)
    simp only [serV] at hrec ⊢
    simp [hrec, Bind.bind, Except.bind, Pure.pure, Except.pure]
  | .vSeq vs, t, hwt, hnsn, f, rest, c, sc, hf => by
    cases t <;> simp only [wtT] at hwt <;> try exact Bool.noConfusion hwt
    simp only [Bool.and_eq_true, decide_eq_true_eq] at hwt
    simp only [nsnV] at hnsn
    simp only [needV] at hf
    obtain ⟨g, rfl⟩ : ∃ g, f = g + 1 := ⟨f - 1, by omega⟩
    simp only [serV, deT, List.append_assoc]
    rw [readTypeLen_encLen 4 (VList.length vs) (by omega) hwt.2]
    have hrec := rtL vs _ hwt.1 hnsn g rest c sc (by omega)
    simp [hrec, Bind.bind, Except.bind, Pure.pure, Except.pure]
  | .vMap es, t, hwt, hnsn, f, rest, c, sc, hf => by
    cases t <;> simp only [wtT] at hwt <;> try exact Bool.noConfusion hwt
    simp only [Bool.and_eq_true, decide_eq_true_eq] at hwt
    simp only [nsnV] at hnsn
    simp only [needV] at hf
    obtain ⟨g, rfl⟩ : ∃ g, f = g + 1 := ⟨f - 1, by omega⟩
    simp only [serV, deT, List.append_assoc]
    rw [readTypeLen_encLen 5 (VEntryList.length es) (by omega) hwt.2]
    have hrec := rtE es _ _ hwt.1 hnsn g rest c sc (by omega)
    simp [hrec, Bind.bind, Except.bind, Pure.pure, Except.pure]
  | .vPair x y, t, hwt, hnsn, f, rest, c, sc, hf => by
    cases t <;> simp only [wtT] at hwt <;> try exact Bool.noConfusion hwt
    simp only [Bool.and_eq_true] at hwt
    simp only [nsnV, Bool.and_eq_true] at hnsn
    simp only [needV] at hf
    obtain ⟨g, rfl⟩ : ∃ g, f = g + 1 := ⟨f - 1, by omega⟩
    simp only [serV, deT, List.append_assoc]
    rw [readTypeLen_encLen 4 2 (by omega) (by norm_num)]
    have hx := rtV x _ hwt.1 hnsn.1 g (serV y ++ rest) c sc (by omega)
    have hy := rtV y _ hwt.2 hnsn.2 g rest c sc (by omega)
    simp [hx, hy, Bind.bind, Except.bind, Pure.pure, Except.pure]
  | .vNewtype v, t, hwt, hnsn, f, rest, c, sc, hf => by
    cases t <;> simp only [wtT] at hwt <;> try exact Bool.noConfusion hwt
    rename_i t₁
    simp only [nsnV] at hnsn
    simp only [needV] at hf
    obtain ⟨g, rfl⟩ : ∃ g, f = g + 1 := ⟨f - 1, by omega⟩
    simp only [serV, deT]
    have hrec := rtV v t₁ hwt hnsn g rest c sc (by omega)
    simp only [serV] at hrec
    simp [hrec, Bind.bind, Except.bind, Pure.pure, Except.pure]
  | .vVariant name p, t, hwt, hnsn, f, rest, c, sc, hf => by
    cases t <;> simp only [wtT] at hwt <;> try exact Bool.noConfusion hwt
    rename_i vs
    simp only [Bool.and_eq_true, decide_eq_true_eq] at hwt
    obtain ⟨⟨hvn, hln⟩, hmatch⟩ := hwt
    simp only [nsnV] at hnsn
    simp only [needV] at hf
    obtain ⟨g, rfl⟩ : ∃ g, f = g + 1 := ⟨f - 1, by omega⟩
    cases hlk : lookupVar vs name with
    | none => rw [hlk] at hmatch; cases hmatch
    | some sh =>
      rw [hlk] at hmatch
      cases p with
      | punit =>
        cases sh <;> simp only [wtP] at hmatch <;> try exact Bool.noConfusion hmatch
        have hser : serV (V.vVariant name .punit) = serText name := by simp [serV]
        rw [hser]
        simp only [deT]
        unfold serText
        rw [List.append_assoc]
        rw [readTypeLen_encLen 3 (utf8Enc name).length (by omega) hln]
        have hre := readExact_front (utf8Enc name) rest c sc
        simp [hre, utf8Dec_enc name hvn, hlk]
      | pnew v =>
        cases sh <;> simp only [wtP] at hmatch <;> try exact Bool.noConfusion hmatch
        rename_i t₁
        have hser : serV (V.vVariant name (.pnew v)) =
            encLen 5 1 ++ (serText name ++ serP (.pnew v)) := by simp [serV]
        rw [hser]
        simp only [deT, List.append_assoc]
        rw [readTypeLen_encLen 5 1 (by omega) (by norm_num)]
        have hrt := readText_serText name hvn hln
        simp only [nsnP] at hnsn
        have hrec := rtP (.pnew v) (.vnew t₁) hmatch hnsn (by simp) g rest c sc (by omega)
        simp [hrt, hlk, hrec, Bind.bind, Except.bind, Pure.pure, Except.pure]
      | ptup x y =>
        cases sh <;> simp only [wtP] at hmatch <;> try exact Bool.noConfusion hmatch
        rename_i ta tb
        have hser : serV (V.vVariant name (.ptup x y)) =
            encLen 5 1 ++ (serText name ++ serP (.ptup x y)) := by simp [serV]
        rw [hser]
        simp only [deT, List.append_assoc]
        rw [readTypeLen_encLen 5 1 (by omega) (by norm_num)]
        have hrt := readText_serText name hvn hln
        simp only [nsnP] at hnsn
        have hrec := rtP (.ptup x y) (.vtup ta tb) hmatch hnsn (by simp) g rest c sc
          (by omega)
        simp [hrt, hlk, hrec, Bind.bind, Except.bind, Pure.pure, Except.pure]
      | pstruct g1 x g2 y =>
        cases sh <;> simp only [wtP] at hmatch <;> try exact Bool.noConfusion hmatch
        rename_i f1 ta f2 tb
        have hser : serV (V.vVariant name (.pstruct g1 x g2 y)) =
            encLen 5 1 ++ (serText name ++ serP (.pstruct g1 x g2 y)) := by simp [serV]
        rw [hser]
        simp only [deT, List.append_assoc]
        rw [readTypeLen_encLen 5 1 (by omega) (by norm_num)]
        have hrt := readText_serText name hvn hln
        simp only [nsnP] at hnsn
        have hrec := rtP (.pstruct g1 x g2 y) (.vstruct f1 ta f2 tb) hmatch hnsn
          (by simp) g rest c sc (by omega)
        simp [hrt, hlk, hrec, Bind.bind, Except.bind, Pure.pure, Except.pure]

/-- Round-trip for a definite-length element run. -/
theorem rtL : ∀ (vs : VList) (t : Ty), wtL t vs = true → nsnL vs = true →
    ∀ (f : Nat) (rest : List Nat) (c : Nat) (sc : Bool), needL vs ≤ f →
    deSeq f t (VList.length vs) ⟨serL vs ++ rest, c, sc⟩ = .ok (vs, (⟨rest, c, sc⟩ : Source))
  | .nil, t, _, _, f, rest, c, sc, hf => by
    simp only [needL] at hf
    obtain ⟨g, rfl⟩ : ∃ g, f = g + 1 := ⟨f - 1, by omega⟩
    simp [serL, VList.length, deSeq]
  | .cons v vs, t, hwt, hnsn, f, rest, c, sc, hf => by
    simp only [wtL, Bool.and_eq_true] at hwt
    simp only [nsnL, Bool.and_eq_true] at hnsn
    simp only [needL] at hf
    obtain ⟨g, rfl⟩ : ∃ g, f = g + 1 := ⟨f - 1, by omega⟩
    simp only [serL, VList.length, deSeq, List.append_assoc]
    have hv := rtV v t hwt.1 hnsn.1 g (serL vs ++ rest) c sc (by omega)
    have hvs := rtL vs t hwt.2 hnsn.2 g rest c sc (by omega)
    simp [hv, hvs, Bind.bind, Except.bind, Pure.pure, Except.pure]

/-- Round-trip for a definite-length entry run. -/
theorem rtE : ∀ (es : VEntryList) (tk tv : Ty), wtE tk tv es = true → nsnE es = true →
    ∀ (f : Nat) (rest : List Nat) (c : Nat) (sc : Bool), needE es ≤ f →
    deEntries f tk tv (VEntryList.length es) ⟨serE es ++ rest, c, sc⟩ =
      .ok (es, (⟨rest, c, sc⟩ : Source))
  | .nil, tk, tv, _, _, f, rest, c, sc, hf => by
    simp only [needE] at hf
    obtain ⟨g, rfl⟩ : ∃ g, f = g + 1 := ⟨f - 1, by omega⟩
    simp [serE, VEntryList.length, deEntries]
  | .cons ke ve es, tk, tv, hwt, hnsn, f, rest, c, sc, hf => by
    simp only [wtE, Bool.and_eq_true] at hwt
    simp only [nsnE, Bool.and_eq_true] at hnsn
    simp only [needE] at hf
    obtain ⟨g, rfl⟩ : ∃ g, f = g + 1 := ⟨f - 1, by omega⟩
    simp only [serE, VEntryList.length, deEntries, List.append_assoc]
    have hk := rtV ke tk hwt.1.1 hnsn.1.1 g (serV ve ++ (serE es ++ rest)) c sc (by omega)
    have hv := rtV ve tv hwt.1.2 hnsn.1.2 g (serE es ++ rest) c sc (by omega)
    have hes := rtE es tk tv hwt.2 hnsn.2 g rest c sc (by omega)
    simp [hk, hv, hes, Bind.bind, Except.bind, Pure.pure, Except.pure]

/-- Round-trip for a non-unit variant payload at its declared shape. -/
theorem rtP : ∀ (p : VPayload) (sh : VShape), wtP sh p = true → nsnP p = true →
    p ≠ .punit →
    ∀ (f : Nat) (rest : List Nat) (c : Nat) (sc : Bool), needP p ≤ f →
    dePayload f sh ⟨serP p ++ rest, c, sc⟩ = .ok (p, (⟨rest, c, sc⟩ : Source))
  | .punit, _, _, _, hne, _, _, _, _, _ => absurd rfl hne
  | .pnew v, sh, hwt, hnsn, _, f, rest, c, sc, hf => by
    cases sh <;> simp only [wtP] at hwt <;> try exact Bool.noConfusion hwt
    rename_i t₁
    simp only [nsnP] at hnsn
    simp only [needP] at hf
    obtain ⟨g, rfl⟩ : ∃ g, f = g + 1 := ⟨f - 1, by omega⟩
    simp only [serP, dePayload]
    have hrec := rtV v t₁ hwt hnsn g rest c sc (by omega)
    simp [hrec, Bind.bind, Except.bind, Pure.pure, Except.pure]
  | .ptup x y, sh, hwt, hnsn, _, f, rest, c, sc, hf => by
    cases sh <;> simp only [wtP] at hwt <;> try exact Bool.noConfusion hwt
    rename_i ta tb
    simp only [Bool.and_eq_true] at hwt
    simp only [nsnP, Bool.and_eq_true] at hnsn
    simp only [needP] at hf
    obtain ⟨g, rfl⟩ : ∃ g, f = g + 1 := ⟨f - 1, by omega⟩
    simp only [serP, dePayload, List.append_assoc]
    rw [readTypeLen_encLen 4 2 (by omega) (by norm_num)]
    have hx := rtV x ta hwt.1 hnsn.1 g (serV y ++ rest) c sc (by omega)
    have hy := rtV y tb hwt.2 hnsn.2 g rest c sc (by omega)
    simp [hx, hy, Bind.bind, Except.bind, Pure.pure, Except.pure]
  | .pstruct g1 x g2 y, sh, hwt, hnsn, _, f, rest, c, sc, hf => by
    cases sh <;> simp only [wtP] at hwt <;> try exact Bool.noConfusion hwt
    rename_i f1 ta f2 tb
    simp only [Bool.and_eq_true, decide_eq_true_eq] at hwt
    obtain ⟨⟨⟨⟨⟨hg1, hg2⟩, hv1, hl1⟩, hv2, hl2⟩, hwx⟩, hwy⟩ := hwt
    subst hg1
    subst hg2
    simp only [nsnP, Bool.and_eq_true] at hnsn
    simp only [needP] at hf
    obtain ⟨g, rfl⟩ : ∃ g, f = g + 1 := ⟨f - 1, by omega⟩
    simp only [serP, dePayload, List.append_assoc]
    rw [readTypeLen_encLen 5 2 (by omega) (by norm_num)]
    have hrt1 := readText_serText g1 hv1 hl1
    have hrt2 := readText_serText g2 hv2 hl2
    have hx := rtV x ta hwx hnsn.1 g (serText g2 ++ (serV y ++ rest)) c sc (by omega)
    have hy := rtV y tb hwy hnsn.2 g rest c sc (by omega)
    simp [hrt1, hrt2, hx, hy, Bind.bind, Except.bind, Pure.pure, Except.pure]

end

/-- A hand-constructed indefinite-length array item: indefinite array header,
the concatenated item encodings, and the break marker. -/
def indefArray (items : List Nat) : List Nat := 0x9F :: (items ++ [0xFF])

/-- Round-trip for an indefinite-length element run terminated by break. -/
theorem rtLI : ∀ (vs : VList) (t : Ty), wtL t vs = true → nsnL vs = true →
    ∀ (f : Nat) (rest : List Nat) (c : Nat) (sc : Bool), needL vs ≤ f →
    deSeqI f t ⟨serL vs ++ (0xFF :: rest), c, sc⟩ = .ok (vs, (⟨rest, c, sc⟩ : Source))
  | .nil, t, _, _, f, rest, c, sc, hf => by
    simp only [needL] at hf
    obtain ⟨g, rfl⟩ : ∃ g, f = g + 1 := ⟨f - 1, by omega⟩
    simp [serL, deSeqI, peekByte, Source.advance]
  | .cons v vs, t, hwt, hnsn, f, rest, c, sc, hf => by
    simp only [wtL, Bool.and_eq_true] at hwt
    simp only [nsnL, Bool.and_eq_true] at hnsn
    simp only [needL] at hf
    obtain ⟨g, rfl⟩ : ∃ g, f = g + 1 := ⟨f - 1, by omega⟩
    obtain ⟨b, l, heq, hff, _⟩ := serV_head v
    have hpeek : peekByte ⟨serL (VList.cons v vs) ++ (0xFF :: rest), c, sc⟩ = some b := by
      simp only [serL, heq, List.append_assoc, List.cons_append]
      rfl
    simp only [deSeqI, hpeek]
    rw [if_neg hff]
    simp only [serL, List.append_assoc]
    have hv := rtV v t hwt.1 hnsn.1 g (serL vs ++ (0xFF :: rest)) c sc (by omega)
    have hvs := rtLI vs t hwt.2 hnsn.2 g rest c sc (by omega)
    simp [hv, hvs, Bind.bind, Except.bind, Pure.pure, Except.pure]

mutual

/-- Modelled from the spec: the buffered content tree the bridge decodes into
before attempting typed deserialization for shapes that cannot be resolved in
one pass (untagged enums, flatten).  It mirrors the generic value model; text
and byte payloads carry the borrow classification of the read that produced
them (input-scoped single-fill reads stay borrowed, copied reads are owned).
-/
inductive Content where
  | cInt (n : Int)
  | cBytes (bor : Bool) (bs : List Nat)
  | cText (bor : Bool) (cs : List Nat)
  | cArr (xs : CList)
  | cMap (es : CPairs)
  | cTag (t : Nat) (v : Content)
  | cBool (b : Bool)
  | cNull
  | cUndef
  | cFloat (ind : Nat) (bits : Nat)

/-- Elements of a buffered array. -/
inductive CList where
  | nil
  | cons (c : Content) (rest : CList)

/-- Entries of a buffered map, in wire order, duplicates kept. -/
inductive CPairs where
  | nil
  | cons (k v : Content) (rest : CPairs)

end

deriving instance DecidableEq for Content
deriving instance Repr for Content

/-- Parse the length/value part of a header whose first byte had indicator
`ind`: inline below 24, extra bytes for 24–27, reserved failure for 28–30,
indefinite marker for 31. -/
def readLen (ind : Nat) (s : Source) : Except Err (Option Nat × Source) :=
  if ind < 24 then .ok (some ind, s)
  else if ind ≤ 27 then
    match readExact s (2 ^ (ind - 24)) with
    | some (bs, _, s₂) => .ok (some (beVal bs), s₂)
    | none => .error .endOfInput
  else if ind ≤ 30 then .error .reservedIndicator
  else .ok (none, s)

mutual

/-- Modelled from the spec: decode any well-formed item into the buffered
content tree ("decoding into this type always succeeds for any well-formed
item").  Indicators 28–30 fail with reserved-indicator in every major type; a
break at item position, an indefinite marker on an integer or tag, and a
wrong-major chunk inside an indefinite string fail with
malformed-indefinite. -/
def decodeC : Nat → Source → Except Err (Content × Source)
  | 0, _ => .error .outOfFuel
  | f + 1, s =>
    match readByte s with
    | .error e => .error e
    | .ok (b, s₁) =>
      if b / 32 = 7 then
        if b % 32 < 20 then .error .typeMismatch
        else if b % 32 = 20 then .ok (.cBool false, s₁)
        else if b % 32 = 21 then .ok (.cBool true, s₁)
        else if b % 32 = 22 then .ok (.cNull, s₁)
        else if b % 32 = 23 then .ok (.cUndef, s₁)
        else if b % 32 = 24 then .error .typeMismatch
        else if b % 32 ≤ 27 then
          match readExact s₁ (2 ^ (b % 32 - 24)) with
          | some (bs, _, s₂) => .ok (.cFloat (b % 32) (beVal bs), s₂)
          | none => .error .endOfInput
        else if b % 32 ≤ 30 then .error .reservedIndicator
        else .error .malformedIndefinite
      else
        match readLen (b % 32) s₁ with
        | .error e => .error e
        | .ok (lenOpt, s₂) =>
          match b / 32, lenOpt with
          | 0, some n => .ok (.cInt n, s₂)
          | 1, some n => .ok (.cInt (-1 - (n : Int)), s₂)
          | 2, some n =>
            (match readExact s₂ n with
             | some (bs, flag, s₃) => .ok (.cBytes flag bs, s₃)
             | none => .error .endOfInput)
          | 2, none =>
            (match deChunks f 2 s₂ with
             | .ok (bs, s₃) => .ok (.cBytes false bs, s₃)
             | .error e => .error e)
          | 3, some n =>
            (match readExact s₂ n with
             | some (bs, flag, s₃) =>
               match utf8Dec bs with
               | some cs => .ok (.cText flag cs, s₃)
               | none => .error .invalidUtf8
             | none => .error .endOfInput)
          | 3, none =>
            (match deChunks f 3 s₂ with
             | .ok (bs, s₃) =>
               match utf8Dec bs with
               | some cs => .ok (.cText false cs, s₃)
               | none => .error .invalidUtf8
             | .error e => .error e)
          | 4, some n =>
            (match deCList f n s₂ with
             | .ok (xs, s₃) => .ok (.cArr xs, s₃)
             | .error e => .error e)
          | 4, none =>
            (match deCListI f s₂ with
             | .ok (xs, s₃) => .ok (.cArr xs, s₃)
             | .error e => .error e)
          | 5, some n =>
            (match deCPairs f n s₂ with
             | .ok (es, s₃) => .ok (.cMap es, s₃)
             | .error e => .error e)
          | 5, none =>
            (match deCPairsI f s₂ with
             | .ok (es, s₃) => .ok (.cMap es, s₃)
             | .error e => .error e)
          | 6, some t =>
            (match decodeC f s₂ with
             | .ok (cv, s₃) => .ok (.cTag t cv, s₃)
             | .error e => .error e)
          | _, _ => .error .malformedIndefinite

/-- Chunks of an indefinite byte/text string: definite-length chunks of the
same major type, copied into an owned buffer, until a break. -/
def deChunks : Nat → Nat → Source → Except Err (List Nat × Source)
  | 0, _, _ => .error .outOfFuel
  | f + 1, m, s =>
    match readByte s with
    | .error e => .error e
    | .ok (b, s₁) =>
      if b = 0xFF then .ok ([], s₁)
      else if b / 32 ≠ m then .error .malformedIndefinite
      else if b % 32 = 31 then .error .malformedIndefinite
      else
        match readLen (b % 32) s₁ with
        | .error e => .error e
        | .ok (some n, s₂) =>
          (match readExact s₂ n with
           | some (bs, _, s₃) =>
             (match deChunks f m s₃ with
              | .ok (r, s₄) => .ok (bs ++ r, s₄)
              | .error e => .error e)
           | none => .error .endOfInput)
        | .ok (none, _) => .error .malformedIndefinite

/-- Definite-length run of buffered array elements. -/
def deCList : Nat → Nat → Source → Except Err (CList × Source)
  | 0, _, _ => .error .outOfFuel
  | _ + 1, 0, s => .ok (.nil, s)
  | f + 1, n + 1, s =>
    match decodeC f s with
    | .ok (cv, s₁) =>
      (match deCList f n s₁ with
       | .ok (xs, s₂) => .ok (.cons cv xs, s₂)
       | .error e => .error e)
    | .error e => .error e

/-- Indefinite-length run of buffered array elements until break. -/
def deCListI : Nat → Source → Except Err (CList × Source)
  | 0, _ => .error .outOfFuel
  | f + 1, s =>
    match peekByte s with
    | none => .error .endOfInput
    | some b =>
      if b = 0xFF then .ok (.nil, s.advance 1)
      else
        match decodeC f s with
        | .ok (cv, s₁) =>
          (match deCListI f s₁ with
           | .ok (xs, s₂) => .ok (.cons cv xs, s₂)
           | .error e => .error e)
        | .error e => .error e

/-- Definite-length run of buffered map entries. -/
def deCPairs : Nat → Nat → Source → Except Err (CPairs × Source)
  | 0, _, _ => .error .outOfFuel
  | _ + 1, 0, s => .ok (.nil, s)
  | f + 1, n + 1, s =>
    match decodeC f s with
    | .ok (ck, s₁) =>
      (match decodeC f s₁ with
       | .ok (cv, s₂) =>
         (match deCPairs f n s₂ with
          | .ok (es, s₃) => .ok (.cons ck cv es, s₃)
          | .error e => .error e)
       | .error e => .error e)
    | .error e => .error e

/-- Indefinite-length run of buffered map entries until break. -/
def deCPairsI : Nat → Source → Except Err (CPairs × Source)
  | 0, _ => .error .outOfFuel
  | f + 1, s =>
    match peekByte s with
    | none => .error .endOfInput
    | some b =>
      if b = 0xFF then .ok (.nil, s.advance 1)
      else
        match decodeC f s with
        | .ok (ck, s₁) =>
          (match decodeC f s₁ with
           | .ok (cv, s₂) =>
             (match deCPairsI f s₂ with
              | .ok (es, s₃) => .ok (.cons ck cv es, s₃)
              | .error e => .error e)
           | .error e => .error e)
        | .error e => .error e

end

/-- Unicode scalars of a Lean string literal (for variant and field names). -/
def strScalars (s : String) : List Nat := s.toList.map Char.toNat

/-- Modelled from the spec: the untagged-enum retry loop.  Variants are
attempted strictly in declared order against the buffered content; the first
success wins; when every attempt fails the dedicated "no matching variant"
error is produced. -/
def tryVariants {α : Type} : List (Content → Except Err α) → Content → Except Err α
  | [], _ => .error .noMatchingVariant
  | f :: fs, cv =>
    match f cv with
    | .ok v => .ok v
    | .error _ => tryVariants fs cv

/-- The untagged enum of the test suite: Bar(i32) before Foo(Box of str). -/
inductive UntaggedEnum where
  | Bar (n : Int)
  | Foo (s : List Nat)
  deriving DecidableEq, Repr

/-- Attempt of the Bar(i32) variant against buffered content: succeeds on an
integer in i32 range. -/
def barAttempt : Content → Except Err UntaggedEnum
  | .cInt n =>
    if -(2 ^ 31 : Int) ≤ n ∧ n < 2 ^ 31 then .ok (.Bar n) else .error .typeMismatch
  | _ => .error .typeMismatch

/-- Attempt of the Foo(string) variant against buffered content: succeeds on
text. -/
def fooAttempt : Content → Except Err UntaggedEnum
  | .cText _ cs => .ok (.Foo cs)
  | _ => .error .typeMismatch

/-- Modelled from the spec: deserializing the untagged enum [Bar(i32),
Foo(String)]: buffer the item into the content tree, then try the variants in
declared order. -/
def deUntagged (f : Nat) (s : Source) : Except Err (UntaggedEnum × Source) :=
  match decodeC f s with
  | .ok (cv, s₁) =>
    (match tryVariants [barAttempt, fooAttempt] cv with
     | .ok v => .ok (v, s₁)
     | .error e => .error e)
  | .error e => .error e

/-- The borrowing untagged enum of the test suite:
[Borrowed(ref str), Owned(String)]. -/
inductive CowStr where
  | Borrowed (s : List Nat)
  | Owned (s : List Nat)
  deriving DecidableEq, Repr

/-- The Borrowed(ref str) attempt: succeeds only on borrowed text (an
input-scoped view). -/
def borrowedAttempt : Content → Except Err CowStr
  | .cText true cs => .ok (.Borrowed cs)
  | _ => .error .typeMismatch

/-- The Owned(String) attempt: succeeds on any text, copying if needed. -/
def ownedAttempt : Content → Except Err CowStr
  | .cText _ cs => .ok (.Owned cs)
  | _ => .error .typeMismatch

/-- Modelled from the spec: deserializing the untagged CowStr enum via
content buffering, attempts in declared order. -/
def deCowStr (f : Nat) (s : Source) : Except Err (CowStr × Source) :=
  match decodeC f s with
  | .ok (cv, s₁) =>
    (match tryVariants [borrowedAttempt, ownedAttempt] cv with
     | .ok v => .ok (v, s₁)
     | .error e => .error e)
  | .error e => .error e

/-- The inner enum of the flatten test. -/
inductive Platform where
  | Amd64
  deriving DecidableEq, Repr

/-- The flattened inner struct of the flatten test. -/
structure Flattened where
  platform : Platform
  deriving DecidableEq, Repr

/-- The outer struct of the flatten test; its only field is marked flatten. -/
structure Package where
  flattened : Flattened
  deriving DecidableEq, Repr

def platformKey : List Nat := strScalars "platform"
def amd64Name : List Nat := strScalars "Amd64"

/-- Unit variant of the inner enum: the bare variant name as text. -/
def serPlatform : Platform → List Nat
  | .Amd64 => serText amd64Name

/-- Modelled from the spec: serializing a struct with a flattened field emits
a single map of unknown length (indefinite, closed by break) whose entries
are the inner struct's fields directly at the outer level — no nested
sub-map for the flattened field. -/
def serPackage (p : Package) : List Nat :=
  0xBF :: (serText platformKey ++ (serPlatform p.flattened.platform ++ [0xFF]))

/-- Resolve the inner enum from buffered content. -/
def dePlatformC : Content → Except Err Platform
  | .cText _ cs => if cs = amd64Name then .ok .Amd64 else .error .typeMismatch
  | _ => .error .typeMismatch

/-- First value for a text key in a buffered map. -/
def CPairs.findKey : CPairs → List Nat → Option Content
  | .nil, _ => none
  | .cons (.cText _ k) v rest, key => if k = key then some v else CPairs.findKey rest key
  | .cons _ _ rest, key => CPairs.findKey rest key

/-- Modelled from the spec: flatten deserialization first decodes the item
fully into the buffered content tree, then resolves the flattened struct's
fields by key from the merged outer map. -/
def dePackage (f : Nat) (s : Source) : Except Err (Package × Source) :=
  match decodeC f s with
  | .ok (.cMap es, s₁) =>
    (match CPairs.findKey es platformKey with
     | some cv =>
       (match dePlatformC cv with
        | .ok pf => .ok (⟨⟨pf⟩⟩, s₁)
        | .error e => .error e)
     | none => .error .typeMismatch)
  | .ok _ => .error .typeMismatch
  | .error e => .error e

/-- The skip test struct: three Option u8 fields, `b` marked
skip-on-deserialize. -/
structure SkipIt where
  a : Option Nat
  b : Option Nat
  c : Option Nat
  deriving DecidableEq, Repr

def aKey : List Nat := [97]
def bKey : List Nat := [98]
def cKey : List Nat := [99]

/-- Encoding of an Option u8 field value: absent is null, present is the
integer. -/
def serOpt : Option Nat → List Nat
  | none => [0xF6]
  | some n => encLen 0 n

/-- Serialize-side of the skip test: all three fields are emitted, the
skipped field included. -/
def serSkipIt (v : SkipIt) : List Nat :=
  encLen 5 3 ++
    (serText aKey ++ (serOpt v.a ++ (serText bKey ++ (serOpt v.b ++
      (serText cKey ++ serOpt v.c)))))

/-- Decode an Option u8 field value. -/
def deOptU8 (s : Source) : Except Err (Option Nat × Source) :=
  match peekByte s with
  | none => .error .endOfInput
  | some b =>
    if b = 0xF6 then .ok (none, s.advance 1)
    else
      match readTypeLen s with
      | .ok (0, some n, s₁) =>
        if n < 256 then .ok (some n, s₁) else .error .typeMismatch
      | .ok _ => .error .typeMismatch
      | .error e => .error e

/-- One map entry of the skip struct: fields `a` and `c` are read by key; any
other key (including the skipped field `b`) has its value consumed and
ignored. -/
def deSkipEntry (f : Nat) (st : Option Nat × Option Nat) (s : Source) :
    Except Err ((Option Nat × Option Nat) × Source) :=
  match readText s with
  | .ok (key, s₁) =>
    if key = aKey then
      (match deOptU8 s₁ with
       | .ok (v, s₂) => .ok ((v, st.2), s₂)
       | .error e => .error e)
    else if key = cKey then
      (match deOptU8 s₁ with
       | .ok (v, s₂) => .ok ((st.1, v), s₂)
       | .error e => .error e)
    else
      (match decodeC f s₁ with
       | .ok (_, s₂) => .ok (st, s₂)
       | .error e => .error e)
  | .error e => .error e

/-- Modelled from the spec: derived struct deserialization with a
skip-on-deserialize field: the skipped field is never read from the wire map
even if present, and after decode it holds its type's default (None). -/
def deSkipIt (f : Nat) (s : Source) : Except Err (SkipIt × Source) :=
  match readTypeLen s with
  | .ok (5, some 3, s₁) =>
    (match deSkipEntry f (none, none) s₁ with
     | .ok (st₁, s₂) =>
       (match deSkipEntry f st₁ s₂ with
        | .ok (st₂, s₃) =>
          (match deSkipEntry f st₂ s₃ with
           | .ok (st₃, s₄) => .ok (⟨st₃.1, none, st₃.2⟩, s₄)
           | .error e => .error e)
        | .error e => .error e)
     | .error e => .error e)
  | .ok _ => .error .typeMismatch
  | .error e => .error e

theorem header_parse (m v : Nat) (hm : m < 8) (hv : v < 2 ^ 64)
    (rest : List Nat) (c : Nat) (sc : Bool) :
    ∃ b l, encLen m v = b :: l ∧ b / 32 = m ∧ b % 32 ≠ 31 ∧
      readLen (b % 32) ⟨l ++ rest, c, sc⟩ = .ok (some v, (⟨rest, c, sc⟩ : Source)) := by
  unfold encLen
  split_ifs with h1 h2 h3 h4
  · refine ⟨m * 32 + v, [], rfl, by omega, by omega, ?_⟩
    unfold readLen
    have hmod : (m * 32 + v) % 32 = v := by omega
    rw [hmod, if_pos h1]
    simp
  · refine ⟨m * 32 + 24, [v], rfl, by omega, by omega, ?_⟩
    unfold readLen
    have hmod : (m * 32 + 24) % 32 = 24 := by omega
    rw [hmod]
    norm_num
    rw [readExact_spec]
    simp [Source.advance, beVal]
  · refine ⟨m * 32 + 25, beBytes 2 v, rfl, by omega, by omega, ?_⟩
    unfold readLen
    have hmod : (m * 32 + 25) % 32 = 25 := by omega
    rw [hmod]
    norm_num
    have hre := readExact_front (beBytes 2 v) rest c sc
    rw [beBytes_length] at hre
    rw [hre]
    have hval := beVal_beBytes 2 v (by norm_num at h2 ⊢; omega)
    simp [hval]
  · refine ⟨m * 32 + 26, beBytes 4 v, rfl, by omega, by omega, ?_⟩
    unfold readLen
    have hmod : (m * 32 + 26) % 32 = 26 := by omega
    rw [hmod]
    norm_num
    have hre := readExact_front (beBytes 4 v) rest c sc
    rw [beBytes_length] at hre
    rw [hre]
    have hval := beVal_beBytes 4 v (by norm_num at h3 ⊢; omega)
    simp [hval]
  · refine ⟨m * 32 + 27, beBytes 8 v, rfl, by omega, by omega, ?_⟩
    unfold readLen
    have hmod : (m * 32 + 27) % 32 = 27 := by omega
    rw [hmod]
    norm_num
    have hre := readExact_front (beBytes 8 v) rest c sc
    rw [beBytes_length] at hre
    rw [hre]
    have hval := beVal_beBytes 8 v (by norm_num at hv ⊢; omega)
    simp [hval]

theorem decodeC_uint (n : Nat) (hn : n < 2 ^ 64) (f : Nat) (rest : List Nat)
    (c : Nat) (sc : Bool) :
    decodeC (f + 1) ⟨encLen 0 n ++ rest, c, sc⟩ = .ok (.cInt n, (⟨rest, c, sc⟩ : Source)) := by
  obtain ⟨b, l, heq, hdiv, hne31, hrl⟩ := header_parse 0 n (by omega) hn rest c sc
  rw [heq]
  simp only [decodeC, List.cons_append]
  rw [readByte_cons]
  have h7 : ¬ (b / 32 = 7) := by omega
  simp [h7, hrl, hdiv]

theorem decodeC_nint (n : Nat) (hn : n < 2 ^ 64) (f : Nat) (rest : List Nat)
    (c : Nat) (sc : Bool) :
    decodeC (f + 1) ⟨encLen 1 n ++ rest, c, sc⟩ =
      .ok (.cInt (-1 - (n : Int)), (⟨rest, c, sc⟩ : Source)) := by
  obtain ⟨b, l, heq, hdiv, hne31, hrl⟩ := header_parse 1 n (by omega) hn rest c sc
  rw [heq]
  simp only [decodeC, List.cons_append]
  rw [readByte_cons]
  have h7 : ¬ (b / 32 = 7) := by omega
  simp [h7, hrl, hdiv]

theorem decodeC_null (f : Nat) (rest : List Nat) (c : Nat) (sc : Bool) :
    decodeC (f + 1) ⟨0xF6 :: rest, c, sc⟩ = .ok (.cNull, (⟨rest, c, sc⟩ : Source)) := by
  simp only [decodeC]
  rw [readByte_cons]
  norm_num

theorem decodeC_text (cs : List Nat) (hv : validStr cs = true)
    (hl : (utf8Enc cs).length < 2 ^ 64) (f : Nat) (rest : List Nat)
    (c : Nat) (sc : Bool) :
    decodeC (f + 1) ⟨serText cs ++ rest, c, sc⟩ =
      .ok (.cText (Source.borrowFlag ⟨utf8Enc cs ++ rest, c, sc⟩ (utf8Enc cs).length) cs,
        (⟨rest, c, sc⟩ : Source)) := by
  unfold serText
  obtain ⟨b, l, heq, hdiv, hne31, hrl⟩ :=
    header_parse 3 (utf8Enc cs).length (by omega) hl (utf8Enc cs ++ rest) c sc
  have hlsplit : (encLen 3 (utf8Enc cs).length ++ utf8Enc cs) ++ rest =
      b :: (l ++ (utf8Enc cs ++ rest)) := by
    rw [heq]
    simp [List.append_assoc]
  rw [hlsplit]
  simp only [decodeC]
  rw [readByte_cons]
  have h7 : ¬ (b / 32 = 7) := by omega
  have hre : readExact ⟨utf8Enc cs ++ rest, c, sc⟩ (utf8Enc cs).length =
      some (utf8Enc cs, Source.borrowFlag ⟨utf8Enc cs ++ rest, c, sc⟩ (utf8Enc cs).length,
        (⟨rest, c, sc⟩ : Source)) := readExact_front (utf8Enc cs) rest c sc
  simp [h7, hrl, hdiv, hre, utf8Dec_enc cs hv]

theorem decodeC_reserved (b : Nat) (h1 : 28 ≤ b % 32) (h2 : b % 32 ≤ 30)
    (f : Nat) (l : List Nat) (c : Nat) (sc : Bool) :
    decodeC (f + 1) ⟨b :: l, c, sc⟩ = .error .reservedIndicator := by
  simp only [decodeC]
  rw [readByte_cons]
  by_cases h7 : b / 32 = 7
  · have e1 : ¬ (b % 32 < 20) := by omega
    have e2 : ¬ (b % 32 = 20) := by omega
    have e3 : ¬ (b % 32 = 21) := by omega
    have e4 : ¬ (b % 32 = 22) := by omega
    have e5 : ¬ (b % 32 = 23) := by omega
    have e6 : ¬ (b % 32 = 24) := by omega
    have e7 : ¬ (b % 32 ≤ 27) := by omega
    simp [h7, e1, e2, e3, e4, e5, e6, e7, h2]
  · have hrl : readLen (b % 32) ⟨l, c, sc⟩ = .error .reservedIndicator := by
      unfold readLen
      have e1 : ¬ (b % 32 < 24) := by omega
      have e2 : ¬ (b % 32 ≤ 27) := by omega
      simp [e1, e2, h2]
    simp [h7, hrl]

theorem decodeC_indef_bytes_text_chunk (cs : List Nat) (f : Nat)
    (rest : List Nat) (c : Nat) (sc : Bool) (hf : 1 ≤ f) :
    decodeC (f + 1) ⟨0x5F :: (serText cs ++ rest), c, sc⟩ = .error .malformedIndefinite := by
  obtain ⟨g, rfl⟩ : ∃ g, f = g + 1 := ⟨f - 1, by omega⟩
  simp only [decodeC]
  rw [readByte_cons]
  have hrl : readLen (0x5F % 32) ⟨serText cs ++ rest, c, sc⟩ =
      .ok (none, (⟨serText cs ++ rest, c, sc⟩ : Source)) := by
    unfold readLen
    norm_num
  have hchunks : deChunks (g + 1) 2 ⟨serText cs ++ rest, c, sc⟩ =
      .error .malformedIndefinite := by
    obtain ⟨b, l, heq, hlo, hhi⟩ := serText_head cs
    have : serText cs ++ rest = b :: (l ++ rest) := by rw [heq]; rfl
    rw [this]
    simp only [deChunks]
    rw [readByte_cons]
    have hff : ¬ (b = 0xFF) := by omega
    have hmaj : b / 32 ≠ 2 := by omega
    simp [hff, hmaj]
  norm_num
  simp [hrl, hchunks]

theorem deOptU8_serOpt (v : Option Nat) (hv : ∀ n, v = some n → n < 256)
    (rest : List Nat) (c : Nat) (sc : Bool) :
    deOptU8 ⟨serOpt v ++ rest, c, sc⟩ = .ok (v, (⟨rest, c, sc⟩ : Source)) := by
  cases v with
  | none =>
    simp [serOpt, deOptU8, peekByte, Source.advance]
  | some n =>
    have hn : n < 256 := hv n rfl
    obtain ⟨b, l, heq, h1, h2⟩ := encLen_head 0 n
    have hpeek : peekByte ⟨serOpt (some n) ++ rest, c, sc⟩ = some b := by
      simp only [serOpt, heq, List.cons_append]
      rfl
    have hb6 : ¬ (b = 0xF6) := by omega
    have hrt := readTypeLen_encLen 0 n (by omega) (by omega) rest c sc
    unfold deOptU8
    rw [hpeek]
    simp only [serOpt]
    simp [hb6, hrt, hn]

theorem tryVariants_first_success {α : Type} (pre : List (Content → Except Err α))
    (fv : Content → Except Err α) (post : List (Content → Except Err α))
    (cv : Content) (v : α)
    (hpre : ∀ g ∈ pre, ∃ e, g cv = .error e) (hf : fv cv = .ok v) :
    tryVariants (pre ++ fv :: post) cv = .ok v := by
  induction pre with
  | nil => simp [tryVariants, hf]
  | cons g gs ih =>
    obtain ⟨e, hg⟩ := hpre g (by simp)
    simp only [List.cons_append, tryVariants, hg]
    exact ih fun g₂ hg₂ => hpre g₂ (by simp [hg₂])

theorem tryVariants_all_fail {α : Type} (fs : List (Content → Except Err α))
    (cv : Content) (hall : ∀ g ∈ fs, ∃ e, g cv = .error e) :
    tryVariants fs cv = .error .noMatchingVariant := by
  induction fs with
  | nil => rfl
  | cons g gs ih =>
    obtain ⟨e, hg⟩ := hall g (by simp)
    simp only [tryVariants, hg]
    exact ih fun g₂ hg₂ => hall g₂ (by simp [hg₂])

/-- The extra-byte count the minimal-width rule demands for a header
length/value. -/
def minExtra (v : Nat) : Nat :=
  if v < 24 then 0
  else if v < 2 ^ 8 then 1
  else if v < 2 ^ 16 then 2
  else if v < 2 ^ 32 then 4
  else 8

/-- A legal extra-byte width for a header length/value: 0 only for inline
values below 24, else one of 1/2/4/8 wide enough for the value. -/
def widthOk (k v : Nat) : Prop :=
  (k = 0 ∧ v < 24) ∨ (k = 1 ∧ v < 2 ^ 8) ∨ (k = 2 ∧ v < 2 ^ 16) ∨
    (k = 4 ∧ v < 2 ^ 32) ∨ (k = 8 ∧ v < 2 ^ 64)

theorem encLen_length (m v : Nat) : (encLen m v).length = 1 + minExtra v := by
  unfold encLen minExtra
  split_ifs <;> simp [beBytes_length]

/-- Claim C4: integer headers always use the minimal width: the chosen
extra-byte count is legal for the value and no legal width is smaller; a
value below 24 is inlined in the single header byte; the encoding is a pure
function of the value (byte-identical across encodings) and parses back to
exactly the encoded value. -/
theorem C4_minimal_width (m v : Nat) (hm : m < 8) (hv : v < 2 ^ 64) :
    (encLen m v).length = 1 + minExtra v ∧
    widthOk (minExtra v) v ∧
    (∀ k, widthOk k v → minExtra v ≤ k) ∧
    (v < 24 → encLen m v = [m * 32 + v]) ∧
    (∀ rest c sc, readTypeLen ⟨encLen m v ++ rest, c, sc⟩ =
      .ok (m, some v, (⟨rest, c, sc⟩ : Source))) := by
  refine ⟨encLen_length m v, ?_, ?_, ?_, ?_⟩
  · unfold minExtra widthOk
    split_ifs <;> simp <;> omega
  · intro k hk
    unfold widthOk at hk
    unfold minExtra
    split_ifs <;> omega
  · intro h24
    unfold encLen
    rw [if_pos h24]
  · intro rest c sc
    exact readTypeLen_encLen m v hm hv rest c sc

/-- Witness for C4 at the concrete value 300 (needs two extra bytes). -/
theorem C4_minimal_width_witness :
    (0 < 8 ∧ 300 < 2 ^ 64) ∧
    ((encLen 0 300).length = 1 + minExtra 300 ∧
      widthOk (minExtra 300) 300 ∧
      (∀ k, widthOk k 300 → minExtra 300 ≤ k) ∧
      (300 < 24 → encLen 0 300 = [0 * 32 + 300]) ∧
      (∀ rest c sc, readTypeLen ⟨encLen 0 300 ++ rest, c, sc⟩ =
        .ok (0, some 300, (⟨rest, c, sc⟩ : Source)))) :=
  ⟨⟨by norm_num, by norm_num⟩, C4_minimal_width 0 300 (by norm_num) (by norm_num)⟩

/-- Claim C7: a byte source may return fewer bytes than requested; decoding
from a source whose every fill yields an input-scoped view of at most one
byte (the SlowReader of the test suite, `chunk = 1`) produces the same
decoded value as decoding the same bytes from a source that returns the
whole remaining input at once (`chunk = 0`). -/
theorem C7_chunked_equals_slice (t : Ty) (v : V) (hwt : wtT t v = true)
    (hnsn : nsnV v = true) (f : Nat) (hf : needV v ≤ f) :
    deT f t ⟨serV v, 1, true⟩ = .ok (v, (⟨[], 1, true⟩ : Source)) ∧
    deT f t ⟨serV v, 0, true⟩ = .ok (v, (⟨[], 0, true⟩ : Source)) := by
  have h1 := rtV v t hwt hnsn f [] 1 true hf
  have h0 := rtV v t hwt hnsn f [] 0 true hf
  rw [List.append_nil] at h1 h0
  exact ⟨h1, h0⟩

/-- Witness for C7: a map from text to signed integers decoded bytewise and
from a whole slice. -/
theorem C7_chunked_equals_slice_witness :
    (wtT (Ty.mapTy Ty.strTy (Ty.sint 32))
        (V.vMap (.cons (.vStr [104, 105]) (.vSInt (-7)) .nil)) = true ∧
      nsnV (V.vMap (.cons (.vStr [104, 105]) (.vSInt (-7)) .nil)) = true ∧
      needV (V.vMap (.cons (.vStr [104, 105]) (.vSInt (-7)) .nil)) ≤ 9) ∧
    (deT 9 (Ty.mapTy Ty.strTy (Ty.sint 32))
        ⟨serV (V.vMap (.cons (.vStr [104, 105]) (.vSInt (-7)) .nil)), 1, true⟩ =
      .ok (V.vMap (.cons (.vStr [104, 105]) (.vSInt (-7)) .nil), (⟨[], 1, true⟩ : Source)) ∧
    deT 9 (Ty.mapTy Ty.strTy (Ty.sint 32))
        ⟨serV (V.vMap (.cons (.vStr [104, 105]) (.vSInt (-7)) .nil)), 0, true⟩ =
      .ok (V.vMap (.cons (.vStr [104, 105]) (.vSInt (-7)) .nil), (⟨[], 0, true⟩ : Source))) :=
  ⟨⟨by decide, by decide, by decide⟩,
    C7_chunked_equals_slice _ _ (by decide) (by decide) 9 (by decide)⟩

/-- Claim C8: a hand-constructed indefinite-length array of N items decodes
to the same typed value as the definite-length encoding of the same N
items. -/
theorem C8_indef_def_equiv (t : Ty) (vs : VList) (hwt : wtL t vs = true)
    (hnsn : nsnL vs = true) (hlen : VList.length vs < 2 ^ 64)
    (f : Nat) (rest : List Nat) (c : Nat) (sc : Bool) (hf : needL vs + 1 ≤ f) :
    deT f (.seq t) ⟨indefArray (serL vs) ++ rest, c, sc⟩ =
      .ok (.vSeq vs, (⟨rest, c, sc⟩ : Source)) ∧
    deT f (.seq t) ⟨serV (.vSeq vs) ++ rest, c, sc⟩ =
      .ok (.vSeq vs, (⟨rest, c, sc⟩ : Source)) := by
  constructor
  · obtain ⟨g, rfl⟩ : ∃ g, f = g + 1 := ⟨f - 1, by omega⟩
    unfold indefArray
    simp only [deT, List.cons_append, List.append_assoc]
    rw [readTypeLen_eq]
    norm_num
    have hrec := rtLI vs t hwt hnsn g rest c sc (by omega)
    simp only [List.singleton_append] at hrec ⊢
    simp [hrec, Bind.bind, Except.bind, Pure.pure, Except.pure]
  · have hwts : wtT (.seq t) (.vSeq vs) = true := by
      simp only [wtT, hwt, Bool.true_and, decide_eq_true_eq]
      omega
    have hnss : nsnV (.vSeq vs) = true := by
      simp only [nsnV]
      exact hnsn
    have := rtV (.vSeq vs) (.seq t) hwts hnss f rest c sc (by simp only [needV]; omega)
    exact this

/-- Witness for C8 at a two-element array of unsigned integers. -/
theorem C8_indef_def_equiv_witness :
    (wtL (Ty.uint 8) (.cons (.vUInt 1) (.cons (.vUInt 2) .nil)) = true ∧
      nsnL (.cons (.vUInt 1) (.cons (.vUInt 2) .nil)) = true ∧
      VList.length (.cons (.vUInt 1) (.cons (.vUInt 2) .nil)) < 2 ^ 64 ∧
      needL (.cons (.vUInt 1) (.cons (.vUInt 2) .nil)) + 1 ≤ 8) ∧
    (deT 8 (Ty.seq (Ty.uint 8))
        ⟨indefArray (serL (.cons (.vUInt 1) (.cons (.vUInt 2) .nil))) ++ [], 0, true⟩ =
      .ok (.vSeq (.cons (.vUInt 1) (.cons (.vUInt 2) .nil)), (⟨[], 0, true⟩ : Source)) ∧
    deT 8 (Ty.seq (Ty.uint 8))
        ⟨serV (.vSeq (.cons (.vUInt 1) (.cons (.vUInt 2) .nil))) ++ [], 0, true⟩ =
      .ok (.vSeq (.cons (.vUInt 1) (.cons (.vUInt 2) .nil)), (⟨[], 0, true⟩ : Source))) :=
  ⟨⟨by decide, by decide, by decide, by decide⟩,
    C8_indef_def_equiv (Ty.uint 8) (.cons (.vUInt 1) (.cons (.vUInt 2) .nil))
      (by decide) (by decide) (by decide) 8 [] 0 true (by decide)⟩

/-- Claim C9: any header byte whose indicator is 28, 29 or 30 fails decode
with the reserved-indicator error, in every major type; and an indefinite
byte string whose first chunk is a text-string item fails with the
malformed-indefinite error. -/
theorem C9_malformed_rejection :
    (∀ b g l c sc, 28 ≤ b % 32 → b % 32 ≤ 30 → 1 ≤ g →
      decodeC g ⟨b :: l, c, sc⟩ = .error .reservedIndicator) ∧
    (∀ cs g rest c sc, 2 ≤ g →
      decodeC g ⟨0x5F :: (serText cs ++ rest), c, sc⟩ = .error .malformedIndefinite) := by
  constructor
  · intro b g l c sc h1 h2 hg
    obtain ⟨g₂, rfl⟩ : ∃ k, g = k + 1 := ⟨g - 1, by omega⟩
    exact decodeC_reserved b h1 h2 g₂ l c sc
  · intro cs g rest c sc hg
    obtain ⟨g₂, rfl⟩ : ∃ k, g = k + 1 := ⟨g - 1, by omega⟩
    exact decodeC_indef_bytes_text_chunk cs g₂ rest c sc (by omega)

/-- Witness for C9: indicator 28 in major types 0 and 7, and an indefinite
byte string starting with a text chunk. -/
theorem C9_malformed_rejection_witness :
    (28 ≤ 0x1C % 32 ∧ 0x1C % 32 ≤ 30 ∧ 28 ≤ 0xFD % 32 ∧ 0xFD % 32 ≤ 30) ∧
    decodeC 3 ⟨[0x1C, 0, 0], 0, true⟩ = .error .reservedIndicator ∧
    decodeC 3 ⟨[0xFD], 0, true⟩ = .error .reservedIndicator ∧
    decodeC 3 ⟨0x5F :: (serText [97] ++ []), 0, true⟩ = .error .malformedIndefinite :=
  ⟨⟨by norm_num, by norm_num, by norm_num, by norm_num⟩,
    C9_malformed_rejection.1 0x1C 3 [0, 0] 0 true (by norm_num) (by norm_num) (by norm_num),
    C9_malformed_rejection.1 0xFD 3 [] 0 true (by norm_num) (by norm_num) (by norm_num),
    C9_malformed_rejection.2 [97] 3 [] 0 true (by norm_num)⟩

theorem decodeC_i32 (n : Int) (h1 : -(2 ^ 31 : Int) ≤ n) (h2 : n < (2 ^ 31 : Int))
    (f : Nat) (rest : List Nat) (c : Nat) (sc : Bool) :
    decodeC (f + 1) ⟨serV (.vSInt n) ++ rest, c, sc⟩ =
      .ok (.cInt n, (⟨rest, c, sc⟩ : Source)) := by
  by_cases hpos : 0 ≤ n
  · have hser : serV (.vSInt n) = serUInt n.toNat := by simp [serV, hpos]
    have h64 : n.toNat < 2 ^ 64 := by omega
    rw [hser]
    unfold serUInt
    rw [if_pos h64]
    have hco := decodeC_uint n.toNat h64 f rest c sc
    rw [Int.toNat_of_nonneg hpos] at hco
    exact hco
  · have hser : serV (.vSInt n) = serNInt (-(n + 1)).toNat := by simp [serV, hpos]
    have h64 : (-(n + 1)).toNat < 2 ^ 64 := by omega
    rw [hser]
    unfold serNInt
    rw [if_pos h64]
    have hco := decodeC_nint (-(n + 1)).toNat h64 f rest c sc
    have hval : (-1 - (((-(n + 1)).toNat : Nat) : Int)) = n := by omega
    rw [hval] at hco
    exact hco

theorem decodeC_bool (b : Bool) (f : Nat) (rest : List Nat) (c : Nat) (sc : Bool) :
    decodeC (f + 1) ⟨serV (.vBool b) ++ rest, c, sc⟩ =
      .ok (.cBool b, (⟨rest, c, sc⟩ : Source)) := by
  cases b <;>
    (simp only [serV, List.cons_append, List.nil_append, decodeC]
     rw [readByte_cons]
     norm_num)

/-- Claim C2: untagged-enum resolution: variants are attempted strictly in
declared order against the buffered content, the first success wins, and
when every variant fails the dedicated no-matching-variant error is
produced.  For the enum [Bar(i32), Foo(String)], a plain integer decodes to
Bar, a text string decodes to Foo, and a boolean (matching neither variant)
fails with no-matching-variant. -/
theorem C2_untagged_order :
    (∀ (α : Type) (pre post : List (Content → Except Err α)) fv cv v,
      (∀ g ∈ pre, ∃ e, g cv = .error e) → fv cv = .ok v →
      tryVariants (pre ++ fv :: post) cv = .ok v) ∧
    (∀ (α : Type) (fs : List (Content → Except Err α)) cv,
      (∀ g ∈ fs, ∃ e, g cv = .error e) →
      tryVariants fs cv = .error .noMatchingVariant) ∧
    (∀ (n : Int), -(2 ^ 31 : Int) ≤ n → n < (2 ^ 31 : Int) →
      ∀ f rest c sc, 1 ≤ f →
      deUntagged f ⟨serV (.vSInt n) ++ rest, c, sc⟩ =
        .ok (.Bar n, (⟨rest, c, sc⟩ : Source))) ∧
    (∀ cs, validStr cs = true → (utf8Enc cs).length < 2 ^ 64 →
      ∀ f rest c sc, 1 ≤ f →
      deUntagged f ⟨serText cs ++ rest, c, sc⟩ =
        .ok (.Foo cs, (⟨rest, c, sc⟩ : Source))) ∧
    (∀ (b : Bool) f rest c sc, 1 ≤ f →
      deUntagged f ⟨serV (.vBool b) ++ rest, c, sc⟩ = .error .noMatchingVariant) := by
  refine ⟨?_, ?_, ?_, ?_, ?_⟩
  · intro α pre post fv cv v hpre hf
    exact tryVariants_first_success pre fv post cv v hpre hf
  · intro α fs cv hall
    exact tryVariants_all_fail fs cv hall
  · intro n h1 h2 f rest c sc hf
    obtain ⟨g, rfl⟩ : ∃ g, f = g + 1 := ⟨f - 1, by omega⟩
    unfold deUntagged
    rw [decodeC_i32 n h1 h2]
    have hbar : barAttempt (.cInt n) = .ok (.Bar n) := by
      simp only [barAttempt]
      rw [if_pos ⟨h1, h2⟩]
    simp [tryVariants, hbar]
  · intro cs hv hl f rest c sc hf
    obtain ⟨g, rfl⟩ : ∃ g, f = g + 1 := ⟨f - 1, by omega⟩
    unfold deUntagged
    rw [decodeC_text cs hv hl]
    simp [tryVariants, barAttempt, fooAttempt]
  · intro b f rest c sc hf
    obtain ⟨g, rfl⟩ : ∃ g, f = g + 1 := ⟨f - 1, by omega⟩
    unfold deUntagged
    rw [decodeC_bool b]
    simp [tryVariants, barAttempt, fooAttempt]

/-- Witness for C2: integer 7 decodes to Bar, text "hi" to Foo, a boolean to
no-matching-variant. -/
theorem C2_untagged_order_witness :
    ((-(2 ^ 31 : Int) ≤ 7 ∧ (7 : Int) < (2 ^ 31 : Int) ∧ (1 : Nat) ≤ 5) ∧
      (validStr [104, 105] = true ∧ (utf8Enc [104, 105]).length < 2 ^ 64)) ∧
    deUntagged 5 ⟨serV (.vSInt 7) ++ [], 0, true⟩ =
      .ok (.Bar 7, (⟨[], 0, true⟩ : Source)) ∧
    deUntagged 5 ⟨serText [104, 105] ++ [], 0, true⟩ =
      .ok (.Foo [104, 105], (⟨[], 0, true⟩ : Source)) ∧
    deUntagged 5 ⟨serV (.vBool true) ++ [], 0, true⟩ = .error .noMatchingVariant :=
  ⟨⟨⟨by norm_num, by norm_num, by norm_num⟩, ⟨by decide, by decide⟩⟩,
    C2_untagged_order.2.2.1 7 (by norm_num) (by norm_num) 5 [] 0 true (by norm_num),
    C2_untagged_order.2.2.2.1 [104, 105] (by decide) (by decide) 5 [] 0 true (by norm_num),
    C2_untagged_order.2.2.2.2 true 5 [] 0 true (by norm_num)⟩

/-- Claim C1 counterexample: the well-typed value Some(None) of type
Option(Option(u8)) encodes as null and decodes back to None, which is not
equal to the original value — so the round-trip law does not hold for every
value of a supported typed shape, even with ample fuel. -/
theorem C1_roundtrip_counterexample :
    wtT (Ty.option (Ty.option (Ty.uint 8))) (V.vSome V.vNone) = true ∧
    needV (V.vSome V.vNone) ≤ 2 ∧
    deT 2 (Ty.option (Ty.option (Ty.uint 8))) ⟨serV (V.vSome V.vNone) ++ [], 0, true⟩ =
      .ok (V.vNone, (⟨[], 0, true⟩ : Source)) ∧
    V.vNone ≠ V.vSome V.vNone := by decide

/-- Claim C1 (amended): for every value of a supported typed shape (booleans,
integers up to 128 bits, floats as their bit patterns, chars, strings, byte
strings, options, sequences, maps, pairs, newtypes, unit/newtype/tuple/struct
enum variants, nested arbitrarily) in which no present option wraps a value
that itself encodes as null (such as Some(None)), serializing and then
deserializing at the same typed shape yields exactly the original value. -/
theorem C1_roundtrip_amended (t : Ty) (v : V) (hwt : wtT t v = true)
    (hnsn : nsnV v = true) (f : Nat) (rest : List Nat) (c : Nat) (sc : Bool)
    (hf : needV v ≤ f) :
    deT f t ⟨serV v ++ rest, c, sc⟩ = .ok (v, (⟨rest, c, sc⟩ : Source)) :=
  rtV v t hwt hnsn f rest c sc hf

/-- Witness for C1 at a nested value: a pair of an option of a 128-bit
integer beyond 64 bits and a newtype enum variant with a negative payload. -/
theorem C1_roundtrip_amended_witness :
    (wtT (Ty.pairTy (Ty.option (Ty.uint 128))
          (Ty.enumTy (VariantList.cons [78, 84] (.vnew (Ty.sint 32)) VariantList.nil)))
        (V.vPair (V.vSome (V.vUInt (2 ^ 70)))
          (V.vVariant [78, 84] (.pnew (.vSInt (-999))))) = true ∧
      nsnV (V.vPair (V.vSome (V.vUInt (2 ^ 70)))
        (V.vVariant [78, 84] (.pnew (.vSInt (-999))))) = true ∧
      needV (V.vPair (V.vSome (V.vUInt (2 ^ 70)))
        (V.vVariant [78, 84] (.pnew (.vSInt (-999))))) ≤ 9) ∧
    deT 9 (Ty.pairTy (Ty.option (Ty.uint 128))
        (Ty.enumTy (VariantList.cons [78, 84] (.vnew (Ty.sint 32)) VariantList.nil)))
      ⟨serV (V.vPair (V.vSome (V.vUInt (2 ^ 70)))
        (V.vVariant [78, 84] (.pnew (.vSInt (-999))))) ++ [], 0, true⟩ =
      .ok (V.vPair (V.vSome (V.vUInt (2 ^ 70)))
        (V.vVariant [78, 84] (.pnew (.vSInt (-999)))), (⟨[], 0, true⟩ : Source)) :=
  ⟨⟨by decide, by decide, by decide⟩,
    C1_roundtrip_amended _ _ (by decide) (by decide) 9 [] 0 true (by decide)⟩

theorem decodeC_serPackage (g : Nat) (c : Nat) (sc : Bool) :
    decodeC (g + 1 + 1 + 1) ⟨serPackage ⟨⟨.Amd64⟩⟩, c, sc⟩ =
      .ok (.cMap (.cons
        (.cText (Source.borrowFlag ⟨utf8Enc platformKey ++ (serText amd64Name ++ [0xFF]), c, sc⟩
          (utf8Enc platformKey).length) platformKey)
        (.cText (Source.borrowFlag ⟨utf8Enc amd64Name ++ [0xFF], c, sc⟩
          (utf8Enc amd64Name).length) amd64Name)
        .nil), (⟨[], c, sc⟩ : Source)) := by
  have hpairs : deCPairsI (g + 1 + 1)
      ⟨serText platformKey ++ (serText amd64Name ++ [0xFF]), c, sc⟩ =
      .ok (.cons
        (.cText (Source.borrowFlag ⟨utf8Enc platformKey ++ (serText amd64Name ++ [0xFF]), c, sc⟩
          (utf8Enc platformKey).length) platformKey)
        (.cText (Source.borrowFlag ⟨utf8Enc amd64Name ++ [0xFF], c, sc⟩
          (utf8Enc amd64Name).length) amd64Name)
        .nil, (⟨[], c, sc⟩ : Source)) := by
    obtain ⟨b₁, l₁, heq₁, hlo₁, hhi₁⟩ := serText_head platformKey
    have hpeek₁ : peekByte ⟨serText platformKey ++ (serText amd64Name ++ [0xFF]), c, sc⟩ =
        some b₁ := by
      rw [heq₁]
      rfl
    have hk := decodeC_text platformKey (by decide) (by decide) g
      (serText amd64Name ++ [0xFF]) c sc
    have hv := decodeC_text amd64Name (by decide) (by decide) g [0xFF] c sc
    simp only [deCPairsI, hpeek₁]
    rw [if_neg (by omega : ¬ (b₁ = 0xFF))]
    simp [hk, hv, peekByte, Source.advance]
  simp only [serPackage, serPlatform, decodeC]
  rw [readByte_cons]
  have hrl : readLen (0xBF % 32) ⟨serText platformKey ++ (serText amd64Name ++ [0xFF]), c, sc⟩ =
      .ok (none, (⟨serText platformKey ++ (serText amd64Name ++ [0xFF]), c, sc⟩ : Source)) := by
    unfold readLen
    norm_num
  norm_num
  rw [hrl]
  simp [hpairs]

/-- Claim C3: a struct whose single field is marked flatten serializes to a
single wire map carrying the inner struct's keys directly at the outer level
(one flat map: indefinite-length header, the platform key and its value, a
break — no nested sub-map), and deserializing that map yields an outer value
equal to the original. -/
theorem C3_flatten (p : Package) (f : Nat) (hf : 3 ≤ f) :
    (∀ c sc, dePackage f ⟨serPackage p, c, sc⟩ = .ok (p, (⟨[], c, sc⟩ : Source))) ∧
    decodeC f ⟨serPackage p, 0, true⟩ =
      .ok (.cMap (.cons (.cText true platformKey) (.cText true amd64Name) .nil),
        (⟨[], 0, true⟩ : Source)) ∧
    serPackage p = 0xBF :: (serText platformKey ++ (serText amd64Name ++ [0xFF])) := by
  obtain ⟨⟨pf⟩⟩ := p
  cases pf
  obtain ⟨g, rfl⟩ : ∃ g, f = g + 1 + 1 + 1 := ⟨f - 3, by omega⟩
  refine ⟨?_, ?_, rfl⟩
  · intro c sc
    unfold dePackage
    rw [decodeC_serPackage g c sc]
    simp [CPairs.findKey, dePlatformC]
  · rw [decodeC_serPackage g 0 true]
    decide

/-- Witness for C3 at the one Package value and fuel 3. -/
theorem C3_flatten_witness :
    (3 ≤ 3) ∧
    ((∀ c sc, dePackage 3 ⟨serPackage ⟨⟨.Amd64⟩⟩, c, sc⟩ =
        .ok ((⟨⟨.Amd64⟩⟩ : Package), (⟨[], c, sc⟩ : Source))) ∧
      decodeC 3 ⟨serPackage ⟨⟨.Amd64⟩⟩, 0, true⟩ =
        .ok (.cMap (.cons (.cText true platformKey) (.cText true amd64Name) .nil),
          (⟨[], 0, true⟩ : Source)) ∧
      serPackage ⟨⟨.Amd64⟩⟩ =
        0xBF :: (serText platformKey ++ (serText amd64Name ++ [0xFF]))) :=
  ⟨by norm_num, C3_flatten ⟨⟨.Amd64⟩⟩ 3 (by norm_num)⟩

theorem decodeC_serOpt (o : Option Nat) (ho : ∀ n, o = some n → n < 256)
    (g : Nat) (rest : List Nat) (c : Nat) (sc : Bool) :
    ∃ cv, decodeC (g + 1) ⟨serOpt o ++ rest, c, sc⟩ = .ok (cv, (⟨rest, c, sc⟩ : Source)) := by
  cases o with
  | none =>
    refine ⟨.cNull, ?_⟩
    have := decodeC_null g rest c sc
    simpa [serOpt] using this
  | some n =>
    refine ⟨.cInt n, ?_⟩
    have hn : n < 256 := ho n rfl
    have := decodeC_uint n (by omega) g rest c sc
    simpa [serOpt] using this

theorem deSkipEntry_a (o : Option Nat) (ho : ∀ n, o = some n → n < 256)
    (g : Nat) (st : Option Nat × Option Nat) (rest : List Nat) (c : Nat) (sc : Bool) :
    deSkipEntry g st ⟨serText aKey ++ (serOpt o ++ rest), c, sc⟩ =
      .ok ((o, st.2), (⟨rest, c, sc⟩ : Source)) := by
  have hrt := readText_serText aKey (by decide) (by decide) (serOpt o ++ rest) c sc
  have hopt := deOptU8_serOpt o ho rest c sc
  simp [deSkipEntry, hrt, hopt]

theorem deSkipEntry_c (o : Option Nat) (ho : ∀ n, o = some n → n < 256)
    (g : Nat) (st : Option Nat × Option Nat) (rest : List Nat) (c : Nat) (sc : Bool) :
    deSkipEntry g st ⟨serText cKey ++ (serOpt o ++ rest), c, sc⟩ =
      .ok ((st.1, o), (⟨rest, c, sc⟩ : Source)) := by
  have hrt := readText_serText cKey (by decide) (by decide) (serOpt o ++ rest) c sc
  have hopt := deOptU8_serOpt o ho rest c sc
  simp [deSkipEntry, hrt, hopt, show cKey ≠ aKey by decide]

theorem deSkipEntry_b (o : Option Nat) (ho : ∀ n, o = some n → n < 256)
    (g : Nat) (st : Option Nat × Option Nat) (rest : List Nat) (c : Nat) (sc : Bool) :
    deSkipEntry (g + 1) st ⟨serText bKey ++ (serOpt o ++ rest), c, sc⟩ =
      .ok (st, (⟨rest, c, sc⟩ : Source)) := by
  have hrt := readText_serText bKey (by decide) (by decide) (serOpt o ++ rest) c sc
  obtain ⟨cv, hcv⟩ := decodeC_serOpt o ho g rest c sc
  simp [deSkipEntry, hrt, hcv, show bKey ≠ aKey by decide, show bKey ≠ cKey by decide]

/-- Claim C5: a struct field marked skip-on-deserialize is still emitted into
the encoded bytes by serialize (the `b` entry is present on the wire between
the `a` and `c` entries), but after deserializing, `b` equals its type's
default None regardless of what was encoded, while fields `a` and `c`
round-trip to their original values. -/
theorem C5_skip (v : SkipIt)
    (ha : ∀ n, v.a = some n → n < 256)
    (hb : ∀ n, v.b = some n → n < 256)
    (hc : ∀ n, v.c = some n → n < 256)
    (f : Nat) (rest : List Nat) (c : Nat) (sc : Bool) (hf : 1 ≤ f) :
    deSkipIt f ⟨serSkipIt v ++ rest, c, sc⟩ =
      .ok (⟨v.a, none, v.c⟩, (⟨rest, c, sc⟩ : Source)) ∧
    ∃ pre post, serSkipIt v = pre ++ (serText bKey ++ serOpt v.b) ++ post := by
  obtain ⟨g, rfl⟩ : ∃ g, f = g + 1 := ⟨f - 1, by omega⟩
  constructor
  · unfold deSkipIt
    simp only [serSkipIt, List.append_assoc]
    rw [readTypeLen_encLen 5 3 (by omega) (by norm_num)]
    have he1 := deSkipEntry_a v.a ha (g + 1) (none, none)
      (serText bKey ++ (serOpt v.b ++ (serText cKey ++ (serOpt v.c ++ rest)))) c sc
    have he2 := deSkipEntry_b v.b hb g (v.a, none)
      (serText cKey ++ (serOpt v.c ++ rest)) c sc
    have he3 := deSkipEntry_c v.c hc (g + 1) (v.a, none) rest c sc
    simp [he1, he2, he3]
  · exact ⟨encLen 5 3 ++ (serText aKey ++ serOpt v.a), serText cKey ++ serOpt v.c,
      by simp [serSkipIt, List.append_assoc]⟩

/-- Witness for C5 at the test value SkipIt with a = 1, b = 255, c = 251. -/
theorem C5_skip_witness :
    ((∀ n, (some 1 : Option Nat) = some n → n < 256) ∧
      (∀ n, (some 255 : Option Nat) = some n → n < 256) ∧
      (∀ n, (some 251 : Option Nat) = some n → n < 256) ∧ (1 : Nat) ≤ 2) ∧
    (deSkipIt 2 ⟨serSkipIt ⟨some 1, some 255, some 251⟩ ++ [], 0, true⟩ =
      .ok ((⟨some 1, none, some 251⟩ : SkipIt), (⟨[], 0, true⟩ : Source)) ∧
    ∃ pre post, serSkipIt ⟨some 1, some 255, some 251⟩ =
      pre ++ (serText bKey ++ serOpt (some 255)) ++ post) :=
  ⟨⟨by decide, by decide, by decide, by norm_num⟩,
    C5_skip ⟨some 1, some 255, some 251⟩ (by decide) (by decide) (by decide)
      2 [] 0 true (by norm_num)⟩

/-- Claim C6: decoding a text item into the borrowing untagged target
CowStr from an input-scoped source that serves the whole slice in one fill
yields the Borrowed variant (a view into the original input), while decoding
the same bytes from a source that yields input-scoped views of at most one
byte per fill — forcing the content-buffering read to copy — yields the
Owned variant with the same characters. -/
theorem C6_borrow (cs : List Nat) (hv : validStr cs = true)
    (hl : (utf8Enc cs).length < 2 ^ 64) (h2 : 2 ≤ (utf8Enc cs).length)
    (f : Nat) (rest : List Nat) (hf : 1 ≤ f) :
    deCowStr f ⟨serText cs ++ rest, 0, true⟩ =
      .ok (.Borrowed cs, (⟨rest, 0, true⟩ : Source)) ∧
    deCowStr f ⟨serText cs ++ rest, 1, true⟩ =
      .ok (.Owned cs, (⟨rest, 1, true⟩ : Source)) := by
  obtain ⟨g, rfl⟩ : ∃ g, f = g + 1 := ⟨f - 1, by omega⟩
  have hflag0 : Source.borrowFlag ⟨utf8Enc cs ++ rest, 0, true⟩ (utf8Enc cs).length = true := by
    simp [Source.borrowFlag, Source.fillLen]
  have hflag1 : Source.borrowFlag ⟨utf8Enc cs ++ rest, 1, true⟩ (utf8Enc cs).length = false := by
    have hlen : (utf8Enc cs ++ rest).length = (utf8Enc cs).length + rest.length :=
      List.length_append _ _
    simp only [Source.borrowFlag, Source.fillLen]
    norm_num
    omega
  constructor
  · have hd := decodeC_text cs hv hl g rest 0 true
    rw [hflag0] at hd
    simp [deCowStr, hd, tryVariants, borrowedAttempt]
  · have hd := decodeC_text cs hv hl g rest 1 true
    rw [hflag1] at hd
    simp [deCowStr, hd, tryVariants, borrowedAttempt, ownedAttempt]

/-- Witness for C6 at the seven-character test string "1234567". -/
theorem C6_borrow_witness :
    (validStr [49, 50, 51, 52, 53, 54, 55] = true ∧
      (utf8Enc [49, 50, 51, 52, 53, 54, 55]).length < 2 ^ 64 ∧
      2 ≤ (utf8Enc [49, 50, 51, 52, 53, 54, 55]).length ∧ (1 : Nat) ≤ 1) ∧
    (deCowStr 1 ⟨serText [49, 50, 51, 52, 53, 54, 55] ++ [], 0, true⟩ =
      .ok (.Borrowed [49, 50, 51, 52, 53, 54, 55], (⟨[], 0, true⟩ : Source)) ∧
    deCowStr 1 ⟨serText [49, 50, 51, 52, 53, 54, 55] ++ [], 1, true⟩ =
      .ok (.Owned [49, 50, 51, 52, 53, 54, 55], (⟨[], 1, true⟩ : Source))) :=
  ⟨⟨by decide, by decide, by decide, by norm_num⟩,
    C6_borrow [49, 50, 51, 52, 53, 54, 55] (by decide) (by decide) (by decide)
      1 [] (by norm_num)⟩

/-- The typed shape of the composite-key map of the test suite: a newtype
struct around a map whose keys are newtype structs around strings and whose
values are newtype structs around sequences of newtype strings. -/
def TestMapTy : Ty :=
  .newtype (.mapTy (.newtype .strTy) (.newtype (.seq (.newtype .strTy))))

/-- Claim C10: maps keyed by composite non-text values (newtype structs
wrapping strings, with newtype-wrapped sequences as values) serialize to a
wire map whose key and value items are the composite items' encodings, and
round-trip to an equal map with all entries preserved, including entries
whose value is an empty sequence. -/
theorem C10_composite_key_map (v : V) (hwt : wtT TestMapTy v = true)
    (hnsn : nsnV v = true) (f : Nat) (rest : List Nat) (c : Nat) (sc : Bool)
    (hf : needV v ≤ f) :
    deT f TestMapTy ⟨serV v ++ rest, c, sc⟩ = .ok (v, (⟨rest, c, sc⟩ : Source)) ∧
    (∀ es, v = .vNewtype (.vMap es) →
      serV v = encLen 5 (VEntryList.length es) ++ serE es) := by
  refine ⟨rtV v TestMapTy hwt hnsn f rest c sc hf, ?_⟩
  intro es h
  subst h
  simp [serV]

/-- Witness for C10 at the test map: TestObj "obj" maps to an empty BoxSet
and TestObj "obj2" maps to [obj3, obj4, ""]. -/
theorem C10_composite_key_map_witness :
    (wtT TestMapTy (V.vNewtype (V.vMap (VEntryList.cons
        (V.vNewtype (V.vStr [111, 98, 106])) (V.vNewtype (V.vSeq VList.nil))
        (VEntryList.cons (V.vNewtype (V.vStr [111, 98, 106, 50]))
          (V.vNewtype (V.vSeq (VList.cons (V.vNewtype (V.vStr [111, 98, 106, 51]))
            (VList.cons (V.vNewtype (V.vStr [111, 98, 106, 52]))
              (VList.cons (V.vNewtype (V.vStr [])) VList.nil)))))
          VEntryList.nil)))) = true ∧
      nsnV (V.vNewtype (V.vMap (VEntryList.cons
        (V.vNewtype (V.vStr [111, 98, 106])) (V.vNewtype (V.vSeq VList.nil))
        (VEntryList.cons (V.vNewtype (V.vStr [111, 98, 106, 50]))
          (V.vNewtype (V.vSeq (VList.cons (V.vNewtype (V.vStr [111, 98, 106, 51]))
            (VList.cons (V.vNewtype (V.vStr [111, 98, 106, 52]))
              (VList.cons (V.vNewtype (V.vStr [])) VList.nil)))))
          VEntryList.nil)))) = true ∧
      needV (V.vNewtype (V.vMap (VEntryList.cons
        (V.vNewtype (V.vStr [111, 98, 106])) (V.vNewtype (V.vSeq VList.nil))
        (VEntryList.cons (V.vNewtype (V.vStr [111, 98, 106, 50]))
          (V.vNewtype (V.vSeq (VList.cons (V.vNewtype (V.vStr [111, 98, 106, 51]))
            (VList.cons (V.vNewtype (V.vStr [111, 98, 106, 52]))
              (VList.cons (V.vNewtype (V.vStr [])) VList.nil)))))
          VEntryList.nil)))) ≤ 30) ∧
    deT 30 TestMapTy ⟨serV (V.vNewtype (V.vMap (VEntryList.cons
        (V.vNewtype (V.vStr [111, 98, 106])) (V.vNewtype (V.vSeq VList.nil))
        (VEntryList.cons (V.vNewtype (V.vStr [111, 98, 106, 50]))
          (V.vNewtype (V.vSeq (VList.cons (V.vNewtype (V.vStr [111, 98, 106, 51]))
            (VList.cons (V.vNewtype (V.vStr [111, 98, 106, 52]))
              (VList.cons (V.vNewtype (V.vStr [])) VList.nil)))))
          VEntryList.nil)))) ++ [], 0, true⟩ =
      .ok (V.vNewtype (V.vMap (VEntryList.cons
        (V.vNewtype (V.vStr [111, 98, 106])) (V.vNewtype (V.vSeq VList.nil))
        (VEntryList.cons (V.vNewtype (V.vStr [111, 98, 106, 50]))
          (V.vNewtype (V.vSeq (VList.cons (V.vNewtype (V.vStr [111, 98, 106, 51]))
            (VList.cons (V.vNewtype (V.vStr [111, 98, 106, 52]))
              (VList.cons (V.vNewtype (V.vStr [])) VList.nil)))))
          VEntryList.nil))), (⟨[], 0, true⟩ : Source)) :=
  ⟨⟨by decide, by decide, by decide⟩,
    (C10_composite_key_map _ (by decide) (by decide) 30 [] 0 true (by decide)).1⟩
